import Mathlib

/-!
Verification development for the file-manager repository (src/main.py).

The engine is the class FileManager with three operations: bulk_rename,
sort_files and find_duplicates.  Each operation clears the report field,
appends human-readable lines to it while it works, and returns None.

Shallow embedding conventions:
  * Report lines are a structured inductive type Line; each constructor
    carries exactly the data that the corresponding Python f-string
    interpolates (paths, names, counts).
  * The filesystem is a list of entries in traversal order (iterdir for
    the one-level operations, rglob for find_duplicates).  An entry that
    cannot be read has content = none (get_file_hash catches the raised
    exception and returns None).  Flags removable / renamable / movable /
    statOk record whether the corresponding OS call succeeds for that
    entry; false models the call raising an exception.
  * The MD5 digest is an abstract parameter md5 : Content -> Fingerprint;
    the source streams the file through hashlib.md5 in 64 KiB blocks,
    which is a pure function of the file content.
  * A Python method that returns None has retval = none; an exception
    escaping an operation is the crashed flag of its output.
-/

set_option autoImplicit false

abbrev Content : Type := List Nat
abbrev Fingerprint : Type := List Nat

/-- Structured report lines; one constructor per distinct message produced
by add_to_report in src/main.py, carrying the interpolated data. -/
inductive Line where
  | dirNotExist (dir : String)
  | fdScanning (dir : String)
  | fdRemoveFlag (remove : Bool)
  | fdCalcHashes
  | fdScanError
  | fdScanned (n : Nat)
  | noDuplicates
  | groupHeader (count bytes : Nat)
  | keep (path : Nat)
  | removedF (path : Nat)
  | removeError (path : Nat)
  | duplicateLine (path : Nat)
  | fdSummaryHeader
  | fdSummaryGroups (n : Nat)
  | fdSummaryDupes (n : Nat)
  | fdSummaryRemoved (n : Nat)
  | fdSummaryFreed (bytes : Nat)
  | brStart (dir : String)
  | brPatternLine (pat repl : String)
  | brRegexMode (b : Bool)
  | brSkipExists (oldName : String)
  | brRenamed (oldName newName : String)
  | brRenameError (oldName : String)
  | brBatchError
  | brSummary (renamed errors : Nat)
  | sfStart (dir : String)
  | sfMoved (name category : String)
  | sfMoveError (name : String)
  | sfBatchError
  | sfCatHeader
  | sfCatLine (category : String) (n : Nat)
  | sfTotal (moved errors : Nat)
  deriving DecidableEq, Repr

/-- The manager state: the mutable self.report list (main.py line 18). -/
structure FM where
  report : List Line
  deriving DecidableEq, Repr

/-- clear_report (main.py lines 30-32). -/
def clear_report (_fm : FM) : FM := ⟨[]⟩

/-- add_to_report (main.py lines 34-37); the print to the console is a
side channel and not part of the stored report. -/
def add_to_report (fm : FM) (message : Line) : FM := ⟨fm.report ++ [message]⟩

/-- Appends a batch of messages with add_to_report, in order. -/
def reportAll (fm : FM) (messages : List Line) : FM :=
  messages.foldl add_to_report fm

/-- The directory argument of an operation: its display name, whether
path.exists() holds, and whether it is in fact a directory. -/
structure DirMeta where
  dname : String
  ex : Bool
  isDir : Bool
  deriving DecidableEq, Repr

/-- A filesystem entry as seen by the recursive scan of find_duplicates.
content = none models a file whose open/read raises; removable models
whether unlink succeeds; statOk models whether stat succeeds at report
time (main.py line 244). -/
structure Entry where
  path : Nat
  isFile : Bool
  content : Option Content
  removable : Bool
  statOk : Bool
  deriving DecidableEq, Repr

/-- get_file_hash (main.py lines 48-61): streams the content through md5;
on any exception prints an error to the console and returns None. -/
def get_file_hash (md5 : Content → Fingerprint) (e : Entry) : Option Fingerprint :=
  match e.content with
  | some c => some (md5 c)
  | none => none

/-- The key under which the scanning loop (main.py lines 213-218) files an
entry: none when the entry is not a regular file or its hash fails. -/
def hkeyF (md5 : Content → Fingerprint) (e : Entry) : Option Fingerprint :=
  if e.isFile then get_file_hash md5 e else none

/-- hash_map[file_hash].append(item) on an insertion-ordered dict
(main.py line 217): append to the existing bucket, else add a new key at
the end. -/
def insertHM (hm : List (Fingerprint × List Entry)) (h : Fingerprint) (e : Entry) :
    List (Fingerprint × List Entry) :=
  match hm with
  | [] => [(h, [e])]
  | (k, v) :: rest =>
      if k = h then (k, v ++ [e]) :: rest else (k, v) :: insertHM rest h e

/-- One iteration of the scanning loop (main.py lines 213-218). -/
def scanStep (md5 : Content → Fingerprint) (hm : List (Fingerprint × List Entry))
    (e : Entry) : List (Fingerprint × List Entry) :=
  match hkeyF md5 e with
  | some h => insertHM hm h e
  | none => hm

/-- The hash_map after the whole recursive scan (main.py lines 206-218). -/
def buildHashMap (md5 : Content → Fingerprint) (fs : List Entry) :
    List (Fingerprint × List Entry) :=
  fs.foldl (scanStep md5) []

/-- duplicates_found (main.py lines 229-232): buckets with more than one
member, in key insertion order. -/
def duplicates_found (md5 : Content → Fingerprint) (fs : List Entry) :
    List (List Entry) :=
  ((buildHashMap md5 fs).filter (fun p => 1 < p.2.length)).map (fun p => p.2)

/-- scanned_count: files whose hash succeeded (main.py lines 216-218). -/
def scannedCountOf (md5 : Content → Fingerprint) (fs : List Entry) : Nat :=
  (fs.filter (fun e => e.isFile && (get_file_hash md5 e).isSome)).length

/-- Paths whose hashing failed, in scan order; get_file_hash prints an
error message to the console for each (main.py line 60). -/
def hashErrorsOf (md5 : Content → Fingerprint) (fs : List Entry) : List Nat :=
  (fs.filter (fun e => e.isFile && (get_file_hash md5 e).isNone)).map (fun e => e.path)

/-- st_size of the first group member (main.py line 244), as the length of
its content in bytes. -/
def file_size (e : Entry) : Nat := (e.content.getD []).length

/-- The report line for a non-canonical group member
(main.py lines 251-261). -/
def memberLine (remove : Bool) (e : Entry) : Line :=
  if remove then
    (if e.removable then Line.removedF e.path else Line.removeError e.path)
  else Line.duplicateLine e.path

/-- Paths actually unlinked among the tail of one group: those whose
unlink call succeeds (main.py lines 252-259). -/
def groupRemoved (remove : Bool) (t : List Entry) : List Nat :=
  if remove then (t.filter (fun e => e.removable)).map (fun e => e.path) else []

/-- Accumulated outcome of the report-and-remove loop
(main.py lines 240-261). -/
structure GroupRun where
  lines : List Line
  removedPaths : List Nat
  removedCount : Nat
  spaceFreed : Nat
  crashed : Bool
  deriving DecidableEq, Repr

/-- The loop over duplicate groups (main.py lines 243-261).  The stat call
on the first member (line 244) is not inside a try block: when it raises
(statOk = false) the exception escapes, so processing stops and nothing
from that group or later groups is reported or removed.  The empty-group
case is unreachable because every group has at least two members. -/
def runGroups (remove : Bool) : List (List Entry) → GroupRun
  | [] => ⟨[], [], 0, 0, false⟩
  | [] :: rest => runGroups remove rest
  | (h :: t) :: rest =>
      if h.statOk then
        let sz := file_size h
        let rp := groupRemoved remove t
        let r := runGroups remove rest
        ⟨(Line.groupHeader (t.length + 1) sz :: Line.keep h.path ::
            t.map (memberLine remove)) ++ r.lines,
         rp ++ r.removedPaths,
         rp.length + r.removedCount,
         sz * rp.length + r.spaceFreed,
         r.crashed⟩
      else ⟨[], [], 0, 0, true⟩

/-- Output of find_duplicates: final manager state, resulting filesystem,
console hash-error log, whether an exception escaped, and the Python
return value (always None in the source). -/
structure FDOut where
  fm : FM
  fs : List Entry
  hashErrors : List Nat
  crashed : Bool
  retval : Option (List Line)
  deriving DecidableEq, Repr

/-- find_duplicates (main.py lines 189-272).  Path existence is checked
eagerly (lines 201-204) but being a directory is not: Path.rglob on an
existing non-directory yields no entries and raises nothing, so the scan
silently finds zero files and the operation runs on to its no-duplicates
epilogue (the handler at line 222 exists in the source, but no failure
this model represents reaches it). -/
def find_duplicates (md5 : Content → Fingerprint) (fm : FM) (d : DirMeta)
    (fs : List Entry) (remove_duplicates : Bool) : FDOut :=
  let fm := clear_report fm
  let fm := reportAll fm [Line.fdScanning d.dname, Line.fdRemoveFlag remove_duplicates]
  if !d.ex then
    ⟨add_to_report fm (Line.dirNotExist d.dname), fs, [], false, none⟩
  else
    let fm := add_to_report fm Line.fdCalcHashes
    let errs := if d.isDir then hashErrorsOf md5 fs else []
    let scanned := if d.isDir then scannedCountOf md5 fs else 0
    let fm := add_to_report fm (Line.fdScanned scanned)
    let dups := if d.isDir then duplicates_found md5 fs else []
    if dups.isEmpty then
      ⟨add_to_report fm Line.noDuplicates, fs, errs, false, none⟩
    else
      let gr := runGroups remove_duplicates dups
      let fm := reportAll fm gr.lines
      let fs2 := fs.filter (fun e => !(gr.removedPaths.contains e.path))
      if gr.crashed then
        ⟨fm, fs2, errs, true, none⟩
      else
        let total := (dups.map (fun g => g.length - 1)).sum
        let fm := reportAll fm
          ([Line.fdSummaryHeader, Line.fdSummaryGroups dups.length,
            Line.fdSummaryDupes total] ++
           (if remove_duplicates then
              [Line.fdSummaryRemoved gr.removedCount,
               Line.fdSummaryFreed gr.spaceFreed]
            else []))
        ⟨fm, fs2, errs, false, none⟩

/-- A file entry at one directory level, as seen by bulk_rename. name is
item.name; renamable models whether item.rename succeeds. -/
structure REntry where
  name : String
  isFile : Bool
  renamable : Bool
  deriving DecidableEq, Repr

/-- Python str.replace for a nonempty pattern: scan left to right and
replace every non-overlapping occurrence.  The fuel argument is the length
of the remaining text, so the recursion is structural and the kernel can
evaluate it. -/
def pyReplaceGo (pat repl : List Char) : Nat → List Char → List Char
  | _, [] => []
  | 0, s => s
  | Nat.succ fuel, c :: rest =>
      if pat.isPrefixOf (c :: rest) then
        repl ++ pyReplaceGo pat repl fuel ((c :: rest).drop pat.length)
      else
        c :: pyReplaceGo pat repl fuel rest

/-- Python str.replace.  An empty pattern inserts the replacement between
every character and at both ends, as Python does. -/
def pyReplace (s pat repl : String) : String :=
  if pat.data = [] then
    ⟨repl.data ++ s.data.flatMap (fun ch => ch :: repl.data)⟩
  else ⟨pyReplaceGo pat.data repl.data s.data.length s.data⟩

/-- Python str.lower on the ASCII range, applied characterwise. -/
def pyToLower (s : String) : String := ⟨s.data.map Char.toLower⟩

/-- The new name computed at main.py lines 91-94: regex substitution when
use_regex is set (the regex engine is the abstract parameter resub),
otherwise Python str.replace, which replaces every occurrence. -/
def newNameOf (resub : String → String → String → String) (use_regex : Bool)
    (pat repl old : String) : String :=
  if use_regex then resub pat repl old else pyReplace old pat repl

/-- Result of the per-file loop of bulk_rename. -/
structure RGo where
  fs : List REntry
  lines : List Line
  renamed : Nat
  errors : Nat
  deriving DecidableEq, Repr

/-- The per-file loop of bulk_rename (main.py lines 87-110).  done holds
the already visited entries (with any renames applied); the existence
check for the target name looks at the whole live directory. -/
def renameGo (resub : String → String → String → String) (pat repl : String)
    (use_regex : Bool) :
    List REntry → List REntry → List Line → Nat → Nat → RGo
  | done, [], lines, renamed, errs => ⟨done, lines, renamed, errs⟩
  | done, e :: rest, lines, renamed, errs =>
      if !e.isFile then
        renameGo resub pat repl use_regex (done ++ [e]) rest lines renamed errs
      else
        let nn := newNameOf resub use_regex pat repl e.name
        if nn = e.name then
          renameGo resub pat repl use_regex (done ++ [e]) rest lines renamed errs
        else if (done ++ e :: rest).any (fun x => x.name == nn) then
          renameGo resub pat repl use_regex (done ++ [e]) rest
            (lines ++ [Line.brSkipExists e.name]) renamed (errs + 1)
        else if e.renamable then
          renameGo resub pat repl use_regex (done ++ [⟨nn, e.isFile, e.renamable⟩]) rest
            (lines ++ [Line.brRenamed e.name nn]) (renamed + 1) errs
        else
          renameGo resub pat repl use_regex (done ++ [e]) rest
            (lines ++ [Line.brRenameError e.name]) renamed (errs + 1)

/-- Output of bulk_rename: manager state, directory contents, and the
Python return value (always None in the source). -/
structure BROut where
  fm : FM
  fs : List REntry
  retval : Option (List Line)
  deriving DecidableEq, Repr

/-- bulk_rename (main.py lines 63-116).  Only path existence is checked
eagerly (lines 79-81); iterating a non-directory raises inside the try
block and is caught by the handler at line 112, after which the summary
line is still appended. -/
def bulk_rename (resub : String → String → String → String) (fm : FM)
    (d : DirMeta) (fs : List REntry) (pat repl : String) (use_regex : Bool) :
    BROut :=
  let fm := clear_report fm
  let fm := reportAll fm
    [Line.brStart d.dname, Line.brPatternLine pat repl, Line.brRegexMode use_regex]
  if !d.ex then
    ⟨add_to_report fm (Line.dirNotExist d.dname), fs, none⟩
  else if !d.isDir then
    ⟨reportAll fm [Line.brBatchError, Line.brSummary 0 0], fs, none⟩
  else
    let r := renameGo resub pat repl use_regex [] fs [] 0 0
    ⟨reportAll fm (r.lines ++ [Line.brSummary r.renamed r.errors]), r.fs, none⟩

/-- A filesystem entry as seen by sort_files.  loc is the directory that
holds the entry: [] is the directory being sorted, [c] the category
subdirectory c.  stem and suffix are the pathlib item.stem and
item.suffix of the entry name; movable models whether shutil.move
succeeds. -/
structure SEntry where
  loc : List String
  stem : String
  suffix : String
  isFile : Bool
  movable : Bool
  deriving DecidableEq, Repr

/-- item.name = stem followed by suffix. -/
def SEntry.fname (e : SEntry) : String := e.stem ++ e.suffix

/-- The file_categories table (main.py lines 19-28), in insertion order. -/
def file_categories : List (String × List String) :=
  [("Images", [".jpg", ".jpeg", ".png", ".gif", ".bmp", ".svg", ".webp", ".ico"]),
   ("Videos", [".mp4", ".avi", ".mkv", ".mov", ".wmv", ".flv", ".webm"]),
   ("Audio", [".mp3", ".wav", ".flac", ".aac", ".ogg", ".m4a", ".wma"]),
   ("Documents", [".pdf", ".doc", ".docx", ".txt", ".rtf", ".odt", ".xls",
                  ".xlsx", ".ppt", ".pptx"]),
   ("Archives", [".zip", ".rar", ".7z", ".tar", ".gz", ".bz2"]),
   ("Code", [".py", ".java", ".cpp", ".c", ".js", ".html", ".css", ".php",
             ".rb", ".go"]),
   ("Executables", [".exe", ".msi", ".app", ".dmg", ".deb", ".rpm"]),
   ("Others", [])]

/-- The category loop with break (main.py lines 141-147): first table row
whose extension list contains ext, defaulting to Others. -/
def categoryOf (ext : String) : String :=
  match file_categories.find? (fun p => p.2.contains ext) with
  | some p => p.1
  | none => "Others"

/-- destination.exists(): some entry of the live filesystem sits at the
given directory with the given name. -/
def existsAt (fs : List SEntry) (loc : List String) (n : String) : Bool :=
  fs.any (fun x => x.loc == loc && SEntry.fname x == n)

/-- The candidate name stem_counter followed by ext built at
main.py line 164. -/
def nthName (stem ext : String) (k : Nat) : String :=
  stem ++ "_" ++ toString k ++ ext

/-- The while loop of main.py lines 162-166: starting from the given
counter, the first value whose candidate name is free.  The loop of the
source is unbounded; fuel bounds the search and is always supplied large
enough that a free name exists within it. -/
def resolveCounter (occupied : String → Bool) (stem ext : String) :
    Nat → Nat → Nat
  | 0, counter => counter
  | fuel + 1, counter =>
      if occupied (nthName stem ext counter) then
        resolveCounter occupied stem ext fuel (counter + 1)
      else counter

/-- counts per category, a defaultdict(int) in insertion order
(main.py line 134). -/
def bump : List (String × Nat) → String → List (String × Nat)
  | [], c => [(c, 1)]
  | (k, n) :: rest, c =>
      if k = c then (k, n + 1) :: rest else (k, n) :: bump rest c

/-- Insertion into a list sorted by category name. -/
def insertSorted (p : String × Nat) : List (String × Nat) → List (String × Nat)
  | [] => [p]
  | q :: rest =>
      if p.1 < q.1 then p :: q :: rest else q :: insertSorted p rest

/-- sorted(moved_files.items()) of main.py line 182 (keys are distinct, so
sorting by key matches sorting the pairs). -/
def sortAssoc (l : List (String × Nat)) : List (String × Nat) :=
  l.foldl (fun acc p => insertSorted p acc) []

/-- Result of the per-file loop of sort_files. -/
structure SGo where
  fs : List SEntry
  lines : List Line
  moved : List (String × Nat)
  errors : Nat
  deriving DecidableEq, Repr

/-- The per-file loop of sort_files (main.py lines 138-175).  Only
immediate children of the sorted directory (loc = []) that are regular
files are processed.  On a name conflict the new name is the stem with
_counter appended and the lowercased extension (ext of line 140), not the
original suffix. -/
def sortGo (create_subdirs : Bool) :
    List SEntry → List SEntry → List Line → List (String × Nat) → Nat → SGo
  | done, [], lines, moved, errs => ⟨done, lines, moved, errs⟩
  | done, e :: rest, lines, moved, errs =>
      if !(e.loc == ([] : List String)) || !e.isFile then
        sortGo create_subdirs (done ++ [e]) rest lines moved errs
      else
        let ext := pyToLower e.suffix
        let category := categoryOf ext
        let catPath : List String := if create_subdirs then [category] else []
        let live := done ++ e :: rest
        let dst : SEntry :=
          if existsAt live catPath (SEntry.fname e) &&
              !(catPath == e.loc && SEntry.fname e == SEntry.fname e) then
            let k := resolveCounter (fun n => existsAt live catPath n)
              e.stem ext (live.length + 1) 1
            ⟨catPath, e.stem ++ "_" ++ toString k, ext, e.isFile, e.movable⟩
          else
            ⟨catPath, e.stem, e.suffix, e.isFile, e.movable⟩
        if dst.loc == e.loc && SEntry.fname dst == SEntry.fname e then
          sortGo create_subdirs (done ++ [e]) rest lines moved errs
        else if e.movable then
          sortGo create_subdirs (done ++ [dst]) rest
            (lines ++ [Line.sfMoved (SEntry.fname e) category])
            (bump moved category) errs
        else
          sortGo create_subdirs (done ++ [e]) rest
            (lines ++ [Line.sfMoveError (SEntry.fname e)]) moved (errs + 1)

/-- Output of sort_files: manager state, filesystem, and the Python
return value (always None in the source). -/
structure SFOut where
  fm : FM
  fs : List SEntry
  retval : Option (List Line)
  deriving DecidableEq, Repr

/-- The category summary lines (main.py lines 180-186). -/
def sortSummary (moved : List (String × Nat)) (errs : Nat) : List Line :=
  Line.sfCatHeader ::
    (sortAssoc moved).map (fun p => Line.sfCatLine p.1 p.2) ++
    [Line.sfTotal ((moved.map (fun p => p.2)).sum) errs]

/-- sort_files (main.py lines 118-187).  Only path existence is checked
eagerly (lines 130-132); iterating a non-directory raises inside the try
block and is caught at line 177, after which the summary is still
appended. -/
def sort_files (fm : FM) (d : DirMeta) (fs : List SEntry)
    (create_subdirs : Bool) : SFOut :=
  let fm := clear_report fm
  let fm := add_to_report fm (Line.sfStart d.dname)
  if !d.ex then
    ⟨add_to_report fm (Line.dirNotExist d.dname), fs, none⟩
  else if !d.isDir then
    ⟨reportAll fm (Line.sfBatchError :: sortSummary [] 0), fs, none⟩
  else
    let r := sortGo create_subdirs [] fs [] [] 0
    ⟨reportAll fm (r.lines ++ sortSummary r.moved r.errors), r.fs, none⟩

/-! ### Hash-map infrastructure lemmas -/

/-- The bucket stored for a key, empty when the key is absent. -/
def bucketList (hm : List (Fingerprint × List Entry)) (k : Fingerprint) :
    List Entry :=
  match hm.find? (fun p => p.1 == k) with
  | some p => p.2
  | none => []

/-- The files the scan sends to key k, in traversal order. -/
def keyFilter (md5 : Content → Fingerprint) (k : Fingerprint) (fs : List Entry) :
    List Entry :=
  fs.filter (fun e => hkeyF md5 e == some k)

/-- Keys of the hash map, in insertion order. -/
def keys (hm : List (Fingerprint × List Entry)) : List Fingerprint :=
  hm.map (fun p => p.1)

theorem bucketList_nil (k : Fingerprint) : bucketList [] k = [] := rfl

theorem bucketList_insertHM (hm : List (Fingerprint × List Entry))
    (h k : Fingerprint) (e : Entry) :
    bucketList (insertHM hm h e) k
      = bucketList hm k ++ (if h = k then [e] else []) := by
  induction hm with
  | nil =>
      by_cases hk : h = k <;>
        simp [insertHM, bucketList, List.find?_cons, hk]
  | cons p rest ih =>
      obtain ⟨k0, v0⟩ := p
      by_cases h0 : k0 = h
      · subst h0
        by_cases hk : k0 = k
        · subst hk
          simp [insertHM, bucketList, List.find?_cons]
        · simp [insertHM, bucketList, List.find?_cons, hk]
      · by_cases hk : k0 = k
        · have hne : ¬ h = k0 := fun hh => h0 hh.symm
          subst hk
          simp [insertHM, bucketList, List.find?_cons, h0, hne]
        · simpa [insertHM, bucketList, List.find?_cons, h0, hk] using ih

theorem bucketList_scanStep (md5 : Content → Fingerprint)
    (hm : List (Fingerprint × List Entry)) (e : Entry) (k : Fingerprint) :
    bucketList (scanStep md5 hm e) k
      = bucketList hm k ++ (if hkeyF md5 e = some k then [e] else []) := by
  unfold scanStep
  cases hh : hkeyF md5 e with
  | none => simp
  | some h =>
      rw [bucketList_insertHM]
      by_cases hk : h = k
      · subst hk; simp
      · simp [hk, Option.some_inj]

theorem bucketList_foldl (md5 : Content → Fingerprint) (fs : List Entry) :
    ∀ (hm : List (Fingerprint × List Entry)) (k : Fingerprint),
      bucketList (fs.foldl (scanStep md5) hm) k
        = bucketList hm k ++ keyFilter md5 k fs := by
  induction fs with
  | nil => intro hm k; simp [keyFilter]
  | cons e rest ih =>
      intro hm k
      rw [List.foldl_cons, ih, bucketList_scanStep]
      unfold keyFilter
      by_cases he : hkeyF md5 e = some k
      · simp [List.filter_cons, he]
      · simp [List.filter_cons, he]

theorem bucketList_buildHashMap (md5 : Content → Fingerprint)
    (fs : List Entry) (k : Fingerprint) :
    bucketList (buildHashMap md5 fs) k = keyFilter md5 k fs := by
  unfold buildHashMap
  rw [bucketList_foldl, bucketList_nil, List.nil_append]

theorem keys_insertHM_subset (hm : List (Fingerprint × List Entry))
    (h : Fingerprint) (e : Entry) :
    ∀ x ∈ keys (insertHM hm h e), x ∈ keys hm ∨ x = h := by
  induction hm with
  | nil => simp [insertHM, keys]
  | cons p rest ih =>
      obtain ⟨k0, v0⟩ := p
      by_cases h0 : k0 = h
      · subst h0
        intro x hx
        left
        have heq : keys (insertHM ((k0, v0) :: rest) k0 e)
            = keys ((k0, v0) :: rest) := by
          simp [insertHM, keys]
        rwa [heq] at hx
      · intro x hx
        simp only [insertHM, h0, if_false, keys, List.map_cons, List.mem_cons] at hx
        rcases hx with hx | hx
        · exact Or.inl (by simp [keys, hx])
        · rcases ih x hx with hx2 | hx2
          · exact Or.inl (by simp [keys] at hx2 ⊢; exact Or.inr hx2)
          · exact Or.inr hx2

theorem nodup_keys_insertHM (hm : List (Fingerprint × List Entry))
    (h : Fingerprint) (e : Entry) (hnd : (keys hm).Nodup) :
    (keys (insertHM hm h e)).Nodup := by
  induction hm with
  | nil => simp [insertHM, keys]
  | cons p rest ih =>
      obtain ⟨k0, v0⟩ := p
      rw [show keys ((k0, v0) :: rest) = k0 :: keys rest from rfl,
        List.nodup_cons] at hnd
      by_cases h0 : k0 = h
      · subst h0
        have : keys (insertHM ((k0, v0) :: rest) k0 e) = k0 :: keys rest := by
          simp [insertHM, keys]
        rw [this, List.nodup_cons]
        exact ⟨hnd.1, hnd.2⟩
      · have : keys (insertHM ((k0, v0) :: rest) h e)
            = k0 :: keys (insertHM rest h e) := by
          simp [insertHM, h0, keys]
        rw [this, List.nodup_cons]
        refine ⟨?_, ih hnd.2⟩
        intro hk0
        rcases keys_insertHM_subset rest h e k0 hk0 with hmem | heq
        · exact hnd.1 hmem
        · exact h0 heq

theorem nodup_keys_scanStep (md5 : Content → Fingerprint)
    (hm : List (Fingerprint × List Entry)) (e : Entry)
    (hnd : (keys hm).Nodup) : (keys (scanStep md5 hm e)).Nodup := by
  unfold scanStep
  cases hkeyF md5 e with
  | none => exact hnd
  | some h => exact nodup_keys_insertHM hm h e hnd

theorem nodup_keys_buildHashMap (md5 : Content → Fingerprint) (fs : List Entry) :
    (keys (buildHashMap md5 fs)).Nodup := by
  unfold buildHashMap
  have main : ∀ (l : List Entry) (hm : List (Fingerprint × List Entry)),
      (keys hm).Nodup → (keys (l.foldl (scanStep md5) hm)).Nodup := by
    intro l
    induction l with
    | nil => intro hm h; exact h
    | cons e rest ih =>
        intro hm h
        exact ih _ (nodup_keys_scanStep md5 hm e h)
  exact main fs [] (by simp [keys])

theorem bucketList_of_mem (hm : List (Fingerprint × List Entry))
    (k : Fingerprint) (v : List Entry) (hnd : (keys hm).Nodup)
    (hmem : (k, v) ∈ hm) : bucketList hm k = v := by
  induction hm with
  | nil => cases hmem
  | cons p rest ih =>
      obtain ⟨k0, v0⟩ := p
      rw [show keys ((k0, v0) :: rest) = k0 :: keys rest from rfl,
        List.nodup_cons] at hnd
      rcases List.mem_cons.mp hmem with heq | htail
      · cases heq
        simp [bucketList, List.find?_cons]
      · have hk0 : k0 ≠ k := by
          intro hh
          subst hh
          exact hnd.1 (by simpa [keys] using
            List.mem_map_of_mem (fun p => p.1) htail)
        simpa [bucketList, List.find?_cons, hk0] using ih hnd.2 htail

theorem mem_of_bucketList_ne_nil (hm : List (Fingerprint × List Entry))
    (k : Fingerprint) (hne : bucketList hm k ≠ []) :
    (k, bucketList hm k) ∈ hm := by
  induction hm with
  | nil => simp [bucketList] at hne
  | cons p rest ih =>
      obtain ⟨k0, v0⟩ := p
      by_cases hk : k0 = k
      · subst hk
        simp [bucketList, List.find?_cons]
      · have hb : bucketList ((k0, v0) :: rest) k = bucketList rest k := by
          simp [bucketList, List.find?_cons, hk]
        rw [hb] at hne ⊢
        exact List.mem_cons_of_mem _ (ih hne)

theorem mem_keyFilter (md5 : Content → Fingerprint) (k : Fingerprint)
    (fs : List Entry) (e : Entry) :
    e ∈ keyFilter md5 k fs ↔ e ∈ fs ∧ hkeyF md5 e = some k := by
  simp [keyFilter, List.mem_filter]

theorem keyFilter_sublist (md5 : Content → Fingerprint) (k : Fingerprint)
    (fs : List Entry) : (keyFilter md5 k fs).Sublist fs :=
  List.filter_sublist fs

theorem mem_duplicates_found (md5 : Content → Fingerprint) (fs : List Entry)
    (g : List Entry) :
    g ∈ duplicates_found md5 fs
      ↔ ∃ k, g = keyFilter md5 k fs ∧ 1 < g.length := by
  constructor
  · intro hg
    unfold duplicates_found at hg
    rcases List.mem_map.mp hg with ⟨p, hp, hpg⟩
    rcases List.mem_filter.mp hp with ⟨hmem, hlen⟩
    have hbv : bucketList (buildHashMap md5 fs) p.1 = p.2 :=
      bucketList_of_mem _ p.1 p.2 (nodup_keys_buildHashMap md5 fs)
        (by simpa using hmem)
    refine ⟨p.1, ?_, ?_⟩
    · rw [← hpg, ← hbv, bucketList_buildHashMap]
    · rw [← hpg]
      simpa using hlen
  · rintro ⟨k, hgk, hlen⟩
    have hb : bucketList (buildHashMap md5 fs) k = keyFilter md5 k fs :=
      bucketList_buildHashMap md5 fs k
    have hne : bucketList (buildHashMap md5 fs) k ≠ [] := by
      rw [hb, ← hgk]
      intro hnil
      rw [hnil] at hlen
      simp at hlen
    have hmem := mem_of_bucketList_ne_nil _ k hne
    unfold duplicates_found
    apply List.mem_map.mpr
    refine ⟨(k, bucketList (buildHashMap md5 fs) k), ?_, by rw [hb, ← hgk]⟩
    apply List.mem_filter.mpr
    refine ⟨hmem, by simp [hb, ← hgk]; exact hlen⟩

theorem path_inj (fs : List Entry) (hnd : (fs.map Entry.path).Nodup)
    {a b : Entry} (ha : a ∈ fs) (hb : b ∈ fs) (hab : a.path = b.path) :
    a = b :=
  List.inj_on_of_nodup_map hnd ha hb hab

theorem group_paths_nodup (md5 : Content → Fingerprint) (fs : List Entry)
    (hnd : (fs.map Entry.path).Nodup) {g : List Entry}
    (hg : g ∈ duplicates_found md5 fs) : (g.map Entry.path).Nodup := by
  rcases (mem_duplicates_found md5 fs g).mp hg with ⟨k, hgk, _⟩
  subst hgk
  exact List.Nodup.sublist ((keyFilter_sublist md5 k fs).map Entry.path) hnd

theorem groups_eq_of_shared_path (md5 : Content → Fingerprint)
    (fs : List Entry) (hnd : (fs.map Entry.path).Nodup)
    {g1 g2 : List Entry} (h1 : g1 ∈ duplicates_found md5 fs)
    (h2 : g2 ∈ duplicates_found md5 fs) {e1 e2 : Entry}
    (he1 : e1 ∈ g1) (he2 : e2 ∈ g2) (hp : e1.path = e2.path) : g1 = g2 := by
  rcases (mem_duplicates_found md5 fs g1).mp h1 with ⟨k1, hg1, _⟩
  rcases (mem_duplicates_found md5 fs g2).mp h2 with ⟨k2, hg2, _⟩
  have hm1 := (mem_keyFilter md5 k1 fs e1).mp (hg1 ▸ he1)
  have hm2 := (mem_keyFilter md5 k2 fs e2).mp (hg2 ▸ he2)
  have he : e1 = e2 := path_inj fs hnd hm1.1 hm2.1 hp
  have hk : k1 = k2 := by
    have := hm1.2
    rw [he, hm2.2] at this
    exact (Option.some_inj.mp this).symm
  rw [hg1, hg2, hk]

/-- Whether the stat call on the first group member would succeed; true
for the unreachable empty group. -/
def headStatOk (g : List Entry) : Bool :=
  match g with
  | [] => true
  | h :: _ => h.statOk

/-- Whether every non-canonical member of the group can be unlinked. -/
def tailRemovable (g : List Entry) : Bool :=
  (g.drop 1).all (fun e => e.removable)

/-- The report lines produced for one duplicate group
(main.py lines 243-261). -/
def glines (remove : Bool) (g : List Entry) : List Line :=
  match g with
  | [] => []
  | h :: t =>
      Line.groupHeader (t.length + 1) (file_size h) :: Line.keep h.path ::
        t.map (memberLine remove)

/-- The paths unlinked for one duplicate group. -/
def gremoved (remove : Bool) (g : List Entry) : List Nat :=
  groupRemoved remove (g.drop 1)

theorem runGroups_no_crash (remove : Bool) (gs : List (List Entry))
    (hall : ∀ g ∈ gs, headStatOk g = true) :
    (runGroups remove gs).crashed = false ∧
    (runGroups remove gs).removedPaths = gs.flatMap (gremoved remove) ∧
    (runGroups remove gs).lines = gs.flatMap (glines remove) := by
  induction gs with
  | nil => simp [runGroups]
  | cons g rest ih =>
      have hrest : ∀ g2 ∈ rest, headStatOk g2 = true :=
        fun g2 hg2 => hall g2 (List.mem_cons_of_mem _ hg2)
      obtain ⟨hc, hr, hl⟩ := ih hrest
      cases g with
      | nil =>
          simpa [runGroups, gremoved, groupRemoved, glines, apply_ite]
            using ih hrest
      | cons h t =>
          have hstat : h.statOk = true := by
            simpa [headStatOk] using hall (h :: t) (List.mem_cons_self _ _)
          simp [runGroups, hstat, gremoved, glines, hc, hr, hl]

theorem runGroups_removed_subset (remove : Bool) (gs : List (List Entry)) :
    ∀ x ∈ (runGroups remove gs).removedPaths,
      ∃ g ∈ gs, x ∈ (g.drop 1).map Entry.path := by
  induction gs with
  | nil => simp [runGroups]
  | cons g rest ih =>
      cases g with
      | nil =>
          intro x hx
          rcases ih x (by simpa [runGroups] using hx) with ⟨g2, hg2, hxg⟩
          exact ⟨g2, List.mem_cons_of_mem _ hg2, hxg⟩
      | cons h t =>
          intro x hx
          by_cases hstat : h.statOk
          · simp only [runGroups, hstat, if_true] at hx
            rcases List.mem_append.mp hx with hx1 | hx2
            · refine ⟨h :: t, List.mem_cons_self _ _, ?_⟩
              have hxt : x ∈ t.map Entry.path := by
                unfold groupRemoved at hx1
                by_cases hrm : remove
                · simp only [hrm, if_true] at hx1
                  rcases List.mem_map.mp hx1 with ⟨e, he, hep⟩
                  exact List.mem_map.mpr ⟨e, (List.mem_filter.mp he).1, hep⟩
                · simp [hrm] at hx1
              simpa using hxt
            · rcases ih x hx2 with ⟨g2, hg2, hxg⟩
              exact ⟨g2, List.mem_cons_of_mem _ hg2, hxg⟩
          · simp [runGroups, hstat] at hx

theorem reportAll_report (fm : FM) (ls : List Line) :
    (reportAll fm ls).report = fm.report ++ ls := by
  induction ls generalizing fm with
  | nil => simp [reportAll]
  | cons l rest ih =>
      show (reportAll (add_to_report fm l) rest).report = _
      rw [ih]
      simp [add_to_report]

theorem head_not_removed (md5 : Content → Fingerprint) (fs : List Entry)
    (hnd : (fs.map Entry.path).Nodup) (rm : Bool) {g : List Entry}
    {h : Entry} {t : List Entry} (hg : g ∈ duplicates_found md5 fs)
    (hht : g = h :: t) :
    h.path ∉ (runGroups rm (duplicates_found md5 fs)).removedPaths := by
  intro hmem
  rcases runGroups_removed_subset rm _ _ hmem with ⟨g2, hg2, hx⟩
  rcases List.mem_map.mp hx with ⟨e, he, hep⟩
  have he2 : e ∈ g2 := List.mem_of_mem_drop he
  have hhg : h ∈ g := by rw [hht]; exact List.mem_cons_self _ _
  have hgg : g = g2 :=
    groups_eq_of_shared_path md5 fs hnd hg hg2 hhg he2 hep.symm
  rw [← hgg, hht] at he
  simp only [List.drop_succ_cons, List.drop_zero] at he
  have hpnd := group_paths_nodup md5 fs hnd hg
  rw [hht, List.map_cons, List.nodup_cons] at hpnd
  exact hpnd.1 (hep ▸ List.mem_map_of_mem Entry.path he)

theorem tail_removed (md5 : Content → Fingerprint) (fs : List Entry)
    (hall : ∀ g ∈ duplicates_found md5 fs, headStatOk g = true)
    {g : List Entry} {h : Entry} {t : List Entry}
    (hg : g ∈ duplicates_found md5 fs) (hht : g = h :: t)
    (hrm : tailRemovable g = true) {e : Entry} (he : e ∈ t) :
    e.path ∈ (runGroups true (duplicates_found md5 fs)).removedPaths := by
  obtain ⟨-, hrr, -⟩ := runGroups_no_crash true _ hall
  rw [hrr]
  apply List.mem_flatMap.mpr
  refine ⟨g, hg, ?_⟩
  rw [hht]
  unfold gremoved groupRemoved
  simp only [List.drop_succ_cons, List.drop_zero, if_true]
  have hremove : e.removable = true := by
    rw [hht] at hrm
    unfold tailRemovable at hrm
    simp only [List.drop_succ_cons, List.drop_zero, List.all_eq_true] at hrm
    exact hrm e he
  exact List.mem_map.mpr ⟨e, List.mem_filter.mpr ⟨he, by simp [hremove]⟩, rfl⟩

theorem filter_mem_group (md5 : Content → Fingerprint) (fs : List Entry)
    (hnd : (fs.map Entry.path).Nodup) {g : List Entry}
    (hg : g ∈ duplicates_found md5 fs) :
    fs.filter (fun e => (g.map Entry.path).contains e.path) = g := by
  rcases (mem_duplicates_found md5 fs g).mp hg with ⟨k, hgk, -⟩
  have hcong : ∀ e ∈ fs,
      ((g.map Entry.path).contains e.path) = (hkeyF md5 e == some k) := by
    intro e he
    by_cases hmem : e ∈ g
    · have h1 : (g.map Entry.path).contains e.path = true :=
        List.elem_iff.mpr (List.mem_map_of_mem Entry.path hmem)
      have h2 : hkeyF md5 e = some k :=
        ((mem_keyFilter md5 k fs e).mp (hgk ▸ hmem)).2
      rw [h1, h2]
      simp
    · have h1 : (g.map Entry.path).contains e.path = false := by
        apply Bool.eq_false_iff.mpr
        intro hc
        have hc2 : e.path ∈ g.map Entry.path := List.elem_iff.mp hc
        rcases List.mem_map.mp hc2 with ⟨x, hx, hxp⟩
        have hxfs : x ∈ fs :=
          ((mem_keyFilter md5 k fs x).mp (hgk ▸ hx)).1
        exact hmem (path_inj fs hnd hxfs he hxp ▸ hx)
      have h2 : ¬ hkeyF md5 e = some k := by
        intro hk
        exact hmem (hgk ▸ (mem_keyFilter md5 k fs e).mpr ⟨he, hk⟩)
      rw [h1]
      exact (beq_eq_false_iff_ne.mpr h2).symm
  rw [List.filter_congr hcong]
  rw [hgk]
  rfl

theorem filter_swap {α : Type} (p q : α → Bool) (l : List α) :
    (l.filter p).filter q = (l.filter q).filter p := by
  rw [List.filter_filter, List.filter_filter]
  exact List.filter_congr (fun x _ => Bool.and_comm _ _)

theorem group_filter_notR (md5 : Content → Fingerprint) (fs : List Entry)
    (hnd : (fs.map Entry.path).Nodup)
    (hall : ∀ g ∈ duplicates_found md5 fs, headStatOk g = true)
    {g : List Entry} {h : Entry} {t : List Entry}
    (hg : g ∈ duplicates_found md5 fs) (hht : g = h :: t)
    (hrm : tailRemovable g = true) :
    g.filter (fun e =>
        !((runGroups true (duplicates_found md5 fs)).removedPaths.contains
            e.path)) = [h] := by
  have hnm := head_not_removed md5 fs hnd true hg hht
  have htr : ∀ e ∈ t,
      e.path ∈ (runGroups true (duplicates_found md5 fs)).removedPaths :=
    fun e he => tail_removed md5 fs hall hg hht hrm he
  rw [hht]
  simp only [List.filter_cons, List.contains, List.elem_eq_mem]
  rw [if_pos (by simp [hnm])]
  rw [List.filter_eq_nil_iff.mpr (fun e he => by simp [htr e he])]

theorem group_survivors (md5 : Content → Fingerprint) (fs : List Entry)
    (hnd : (fs.map Entry.path).Nodup)
    (hall : ∀ g ∈ duplicates_found md5 fs, headStatOk g = true)
    {g : List Entry} {h : Entry} {t : List Entry}
    (hg : g ∈ duplicates_found md5 fs) (hht : g = h :: t)
    (hrm : tailRemovable g = true) :
    (fs.filter (fun e =>
        !((runGroups true (duplicates_found md5 fs)).removedPaths.contains
            e.path))).filter
      (fun e => (g.map Entry.path).contains e.path) = [h] := by
  rw [filter_swap, filter_mem_group md5 fs hnd hg]
  exact group_filter_notR md5 fs hnd hall hg hht hrm

theorem find_duplicates_fs_eq (md5 : Content → Fingerprint) (fm : FM)
    (n : String) (fs : List Entry) (rm : Bool) :
    (find_duplicates md5 fm ⟨n, true, true⟩ fs rm).fs
      = fs.filter (fun e =>
          !((runGroups rm (duplicates_found md5 fs)).removedPaths.contains
              e.path)) := by
  by_cases hd : (duplicates_found md5 fs).isEmpty
  · have hnil : duplicates_found md5 fs = [] := by
      simpa [List.isEmpty_iff] using hd
    simp [find_duplicates, hd, hnil, runGroups]
  · have hd2 : (duplicates_found md5 fs).isEmpty = false := by
      simpa using hd
    simp only [find_duplicates, hd2, Bool.not_true, Bool.false_eq_true,
      if_false, if_true, ite_true, ite_false, Bool.ite_eq_true_distrib]
    split <;> rfl

theorem hkeyF_eq_some (md5 : Content → Fingerprint) {e : Entry}
    {k : Fingerprint} (h : hkeyF md5 e = some k) :
    e.isFile = true ∧ ∃ c, e.content = some c ∧ md5 c = k := by
  unfold hkeyF at h
  by_cases hf : e.isFile = true
  · refine ⟨hf, ?_⟩
    rw [if_pos hf] at h
    unfold get_file_hash at h
    cases hc : e.content with
    | none => rw [hc] at h; cases h
    | some c =>
        rw [hc] at h
        exact ⟨c, rfl, Option.some_inj.mp h⟩
  · rw [if_neg hf] at h
    cases h

theorem find_duplicates_noDup_report (md5 : Content → Fingerprint) (fm : FM)
    (n : String) (fs : List Entry) (rm : Bool)
    (hd : duplicates_found md5 fs = []) :
    Line.noDuplicates ∈ (find_duplicates md5 fm ⟨n, true, true⟩ fs rm).fm.report := by
  simp [find_duplicates, hd, add_to_report, reportAll]

/-- Fixtures used by the concrete witnesses and counterexamples below. -/
def fmW : FM := ⟨[]⟩

def eW0 : Entry := ⟨0, true, some [1], true, true⟩

def eW1 : Entry := ⟨1, true, some [1], true, true⟩

def eW2 : Entry := ⟨2, true, some [2], true, true⟩

def fsW : List Entry := [eW0, eW1, eW2]

/-- C1 counterexample input: the duplicate of the first group cannot be
unlinked, and the head of the second group fails its stat call. -/
def eX0 : Entry := ⟨0, true, some [1], true, true⟩

def eX1 : Entry := ⟨1, true, some [1], false, true⟩

def eX2 : Entry := ⟨2, true, some [2], true, false⟩

def eX3 : Entry := ⟨3, true, some [2], true, true⟩

def fsX : List Entry := [eX0, eX1, eX2, eX3]

/-- C1, the claim as frozen, is false: on fsX, find_duplicates with
remove=true leaves both members of both duplicate groups on disk (a failed
unlink leaves the non-canonical copy, and a failed stat on the second
group head aborts the run), so no group ends with exactly one survivor. -/
theorem c1_counterexample :
    duplicates_found id fsX = [[eX0, eX1], [eX2, eX3]] ∧
    (find_duplicates id fmW ⟨"d", true, true⟩ fsX true).fs = fsX ∧
    (find_duplicates id fmW ⟨"d", true, true⟩ fsX true).crashed = true := by
  decide

/-- C1 (amended): on a filesystem with distinct paths, find_duplicates
with remove=true never deletes the canonical first member of a duplicate
group, whatever stat calls or removals fail; and when additionally every
group head can be stat-ed and every non-canonical member can be unlinked,
exactly that one file of each group survives, and with an injective digest
its content is byte-identical to the content of every member of its
group. -/
theorem c1_amended_safety (md5 : Content → Fingerprint) (fm : FM) (n : String)
    (fs : List Entry)
    (hnd : (fs.map Entry.path).Nodup) :
    (∀ g ∈ duplicates_found md5 fs, ∀ h t, g = h :: t →
        h ∈ (find_duplicates md5 fm ⟨n, true, true⟩ fs true).fs) ∧
    ((∀ g ∈ duplicates_found md5 fs, headStatOk g = true) →
     (∀ g ∈ duplicates_found md5 fs, tailRemovable g = true) →
      ∀ g ∈ duplicates_found md5 fs, ∀ h t, g = h :: t →
        (find_duplicates md5 fm ⟨n, true, true⟩ fs true).fs.filter
            (fun e => (g.map Entry.path).contains e.path) = [h] ∧
        (Function.Injective md5 → ∀ e ∈ g, e.content = h.content)) := by
  constructor
  · intro g hg h t hht
    rw [find_duplicates_fs_eq]
    apply List.mem_filter.mpr
    constructor
    · have hh : h ∈ g := by rw [hht]; exact List.mem_cons_self _ _
      rcases (mem_duplicates_found md5 fs g).mp hg with ⟨k, hgk, -⟩
      exact ((mem_keyFilter md5 k fs h).mp (hgk ▸ hh)).1
    · have hnm := head_not_removed md5 fs hnd true hg hht
      cases hc : (runGroups true
          (duplicates_found md5 fs)).removedPaths.contains h.path
      · rfl
      · exact absurd (List.elem_iff.mp hc) hnm
  · intro hall hrem g hg h t hht
    constructor
    · rw [find_duplicates_fs_eq]
      exact group_survivors md5 fs hnd hall hg hht (hrem g hg)
    · intro hinj e he
      rcases (mem_duplicates_found md5 fs g).mp hg with ⟨k, hgk, -⟩
      have hh : h ∈ g := by rw [hht]; exact List.mem_cons_self _ _
      have hke := ((mem_keyFilter md5 k fs e).mp (hgk ▸ he)).2
      have hkh := ((mem_keyFilter md5 k fs h).mp (hgk ▸ hh)).2
      rcases (hkeyF_eq_some md5 hke).2 with ⟨ce, hce, hmce⟩
      rcases (hkeyF_eq_some md5 hkh).2 with ⟨ch, hch, hmch⟩
      rw [hce, hch, hinj (hmce.trans hmch.symm)]

/-- Witness for c1_amended_safety at a concrete filesystem. -/
theorem c1_witness :
    eW0 ∈ (find_duplicates id fmW ⟨"d", true, true⟩ fsW true).fs ∧
    (find_duplicates id fmW ⟨"d", true, true⟩ fsW true).fs.filter
        (fun e => (([eW0, eW1] : List Entry).map Entry.path).contains e.path)
      = [eW0] := by
  have T := c1_amended_safety id fmW "d" fsW (by decide)
  exact ⟨T.1 [eW0, eW1] (by decide) eW0 [eW1] rfl,
         (T.2 (by decide) (by decide) [eW0, eW1] (by decide)
           eW0 [eW1] rfl).1⟩

/-- C3: after a completed find_duplicates(D, remove=true) in which every
removal succeeded (and nothing else touched the directory, so every group head
could be stat-ed), scanning the resulting filesystem again finds zero
duplicate groups, and the second run reports that no duplicate files were
found. -/
theorem c3_idempotent (md5 : Content → Fingerprint) (fm fm2 : FM)
    (n : String) (fs : List Entry) (rm2 : Bool)
    (hnd : (fs.map Entry.path).Nodup)
    (hall : ∀ g ∈ duplicates_found md5 fs, headStatOk g = true)
    (hrem : ∀ g ∈ duplicates_found md5 fs, tailRemovable g = true) :
    duplicates_found md5
        (find_duplicates md5 fm ⟨n, true, true⟩ fs true).fs = [] ∧
    Line.noDuplicates ∈
      (find_duplicates md5 fm2 ⟨n, true, true⟩
        (find_duplicates md5 fm ⟨n, true, true⟩ fs true).fs rm2).fm.report := by
  have hmain : duplicates_found md5
      (find_duplicates md5 fm ⟨n, true, true⟩ fs true).fs = [] := by
    rw [find_duplicates_fs_eq]
    apply List.eq_nil_iff_forall_not_mem.mpr
    intro g1 hg1
    rcases (mem_duplicates_found md5 _ g1).mp hg1 with ⟨k, hgk, hlen⟩
    have hsplit : keyFilter md5 k
        (fs.filter (fun e =>
          !((runGroups true (duplicates_found md5 fs)).removedPaths.contains
              e.path)))
        = (keyFilter md5 k fs).filter (fun e =>
            !((runGroups true (duplicates_found md5 fs)).removedPaths.contains
                e.path)) := by
      unfold keyFilter
      exact filter_swap _ _ fs
    by_cases hB : 1 < (keyFilter md5 k fs).length
    · have hBmem : keyFilter md5 k fs ∈ duplicates_found md5 fs :=
        (mem_duplicates_found md5 fs _).mpr ⟨k, rfl, hB⟩
      cases hcase : keyFilter md5 k fs with
      | nil => rw [hcase] at hB; simp at hB
      | cons h t =>
          have hone := group_filter_notR md5 fs hnd hall hBmem hcase
            (hrem _ hBmem)
          rw [hgk, hsplit] at hlen
          rw [hcase] at hone
          rw [hcase, hone] at hlen
          simp at hlen
    · rw [hgk, hsplit] at hlen
      have hle := List.length_filter_le
          (fun e =>
            !((runGroups true (duplicates_found md5 fs)).removedPaths.contains
                e.path))
          (keyFilter md5 k fs)
      omega
  exact ⟨hmain, find_duplicates_noDup_report md5 fm2 n _ rm2 hmain⟩

/-- Witness for c3_idempotent at a concrete filesystem. -/
theorem c3_witness :
    duplicates_found id
        (find_duplicates id fmW ⟨"d", true, true⟩ fsW true).fs = [] ∧
    Line.noDuplicates ∈
      (find_duplicates id fmW ⟨"d", true, true⟩
        (find_duplicates id fmW ⟨"d", true, true⟩ fsW true).fs true).fm.report :=
  c3_idempotent id fmW fmW "d" fsW true (by decide) (by decide) (by decide)

theorem content_keyFilter (md5 : Content → Fingerprint)
    (hinj : Function.Injective md5) (fs : List Entry) (c : Content) :
    fs.filter (fun e => e.isFile && e.content == some c)
      = keyFilter md5 (md5 c) fs := by
  apply List.filter_congr
  intro e _
  by_cases hf : e.isFile = true
  · cases hc : e.content with
    | none => simp [hf, hc, hkeyF, get_file_hash]
    | some c2 =>
        by_cases hcc : c2 = c
        · subst hcc
          simp [hf, hc, hkeyF, get_file_hash]
        · have hm : ¬ md5 c2 = md5 c := fun hh => hcc (hinj hh)
          simp [hf, hc, hkeyF, get_file_hash, hcc, hm]
  · have hf2 : e.isFile = false := by
      cases hfc : e.isFile
      · rfl
      · exact absurd hfc hf
    simp [hf2, hkeyF]

theorem assoc_filter_unique (l : List (Fingerprint × List Entry))
    (k0 : Fingerprint) (v0 : List Entry) (q : List Entry → Bool)
    (hnd : (keys l).Nodup) (hmem : (k0, v0) ∈ l)
    (hq : ∀ p ∈ l, q p.2 = decide (p.1 = k0)) :
    (l.map (fun p => p.2)).filter q = [v0] := by
  induction l with
  | nil => cases hmem
  | cons p1 rest ih =>
      obtain ⟨k1, v1⟩ := p1
      rw [show keys ((k1, v1) :: rest) = k1 :: keys rest from rfl,
        List.nodup_cons] at hnd
      rcases List.mem_cons.mp hmem with heq | htail
      · cases heq
        have hqv : q v0 = true := by
          simpa using hq (k0, v0) (List.mem_cons_self _ _)
        have hrest : (rest.map (fun p => p.2)).filter q = [] := by
          apply List.filter_eq_nil_iff.mpr
          intro v hv
          rcases List.mem_map.mp hv with ⟨p, hp, hpv⟩
          have hqp : q p.2 = decide (p.1 = k0) :=
            hq p (List.mem_cons_of_mem _ hp)
          have hk : ¬ p.1 = k0 := by
            intro hh
            exact hnd.1 (by
              simpa [keys, hh] using List.mem_map_of_mem (fun p => p.1) hp)
          rw [← hpv]
          simp [hqp, hk]
        simp [List.filter_cons, hqv, hrest]
      · have hk1 : ¬ k1 = k0 := by
          intro hh
          subst hh
          exact hnd.1 (by
            simpa [keys] using List.mem_map_of_mem (fun p => p.1) htail)
        have hqv : q v1 = false := by
          simpa [hk1] using hq (k1, v1) (List.mem_cons_self _ _)
        have := ih hnd.2 htail (fun p hp => hq p (List.mem_cons_of_mem _ hp))
        simpa [List.filter_cons, hqv] using this

/-- Recognizer for a KEEP line whose path lies in the given path set. -/
def isKeepIn (ps : List Nat) (l : Line) : Bool :=
  match l with
  | Line.keep p => ps.contains p
  | _ => false

theorem countP_flatMap_eq_sum {α β : Type} (p : β → Bool) (f : α → List β)
    (l : List α) :
    (l.flatMap f).countP p = (l.map (fun a => (f a).countP p)).sum := by
  induction l with
  | nil => simp
  | cons a rest ih => simp [List.flatMap_cons, List.countP_append, ih]

theorem countP_eq_sum_map {α : Type} (p : α → Bool) (l : List α) :
    (l.map (fun a => if p a then 1 else 0)).sum = l.countP p := by
  induction l with
  | nil => simp
  | cons a rest ih =>
      rw [List.map_cons, List.sum_cons, List.countP_cons, ih]
      omega

theorem countP_glines (ps : List Nat) (rm : Bool) (h : Entry)
    (t : List Entry) :
    (glines rm (h :: t)).countP (isKeepIn ps)
      = if ps.contains h.path then 1 else 0 := by
  unfold glines
  rw [List.countP_cons, List.countP_cons]
  have hmem : (t.map (memberLine rm)).countP (isKeepIn ps) = 0 := by
    apply List.countP_eq_zero.mpr
    intro l hl
    rcases List.mem_map.mp hl with ⟨e, _, hle⟩
    subst hle
    cases hrm : rm <;> cases hrem : e.removable <;>
      simp [memberLine, isKeepIn, hrm, hrem]
  have h1 : isKeepIn ps (Line.groupHeader (t.length + 1) (file_size h))
      = false := rfl
  have h2 : isKeepIn ps (Line.keep h.path) = ps.contains h.path := rfl
  rw [hmem, h1, h2]
  cases hc : ps.contains h.path <;> simp

theorem find_duplicates_report_eq (md5 : Content → Fingerprint) (fm : FM)
    (n : String) (fs : List Entry) (rm : Bool)
    (hall : ∀ g ∈ duplicates_found md5 fs, headStatOk g = true)
    (hne : duplicates_found md5 fs ≠ []) :
    (find_duplicates md5 fm ⟨n, true, true⟩ fs rm).fm.report
      = ([Line.fdScanning n, Line.fdRemoveFlag rm, Line.fdCalcHashes,
          Line.fdScanned (scannedCountOf md5 fs)]
         ++ (duplicates_found md5 fs).flatMap (glines rm))
        ++ ([Line.fdSummaryHeader,
             Line.fdSummaryGroups (duplicates_found md5 fs).length,
             Line.fdSummaryDupes
               (((duplicates_found md5 fs).map (fun g => g.length - 1)).sum)]
            ++ (if rm then
                  [Line.fdSummaryRemoved
                     (runGroups rm (duplicates_found md5 fs)).removedCount,
                   Line.fdSummaryFreed
                     (runGroups rm (duplicates_found md5 fs)).spaceFreed]
                else [])) := by
  obtain ⟨hc, -, hl⟩ := runGroups_no_crash rm _ hall
  have hd2 : (duplicates_found md5 fs).isEmpty = false := by
    cases hdf : duplicates_found md5 fs with
    | nil => exact absurd hdf hne
    | cons a b => simp [hdf]
  simp only [find_duplicates, hd2, hc, Bool.not_true, Bool.false_eq_true,
    if_false, if_true, ite_true, ite_false]
  simp [reportAll_report, add_to_report, clear_report, hl]


/-- C2: with a collision-free digest, for every content c with exactly
N >= 2 byte-identical regular files in the scanned tree (and no other file
of that content), find_duplicates collects precisely those N files into
one duplicate group (whose size is N by hypothesis hN), no other duplicate
group contains any file of that content, and the operation report marks
exactly one member of that group KEEP. -/
theorem c2_unique_group (md5 : Content → Fingerprint) (fm : FM) (n : String)
    (fs : List Entry) (c : Content) (N : Nat) (rm : Bool)
    (hinj : Function.Injective md5)
    (hnd : (fs.map Entry.path).Nodup)
    (hall : ∀ g ∈ duplicates_found md5 fs, headStatOk g = true)
    (hN : (fs.filter (fun e => e.isFile && e.content == some c)).length = N)
    (h2 : 2 ≤ N) :
    ((duplicates_found md5 fs).filter
        (fun g => g.any (fun e => e.content == some c))
      = [fs.filter (fun e => e.isFile && e.content == some c)]) ∧
    fs.filter (fun e => e.isFile && e.content == some c)
        ∈ duplicates_found md5 fs ∧
    (find_duplicates md5 fm ⟨n, true, true⟩ fs rm).fm.report.countP
        (isKeepIn ((fs.filter (fun e => e.isFile && e.content == some c)).map
          Entry.path)) = 1 := by
  have hGB : fs.filter (fun e => e.isFile && e.content == some c)
      = keyFilter md5 (md5 c) fs := content_keyFilter md5 hinj fs c
  have hGlen : 1 < (fs.filter
      (fun e => e.isFile && e.content == some c)).length := by
    rw [hN]; omega
  have hGmem : fs.filter (fun e => e.isFile && e.content == some c)
      ∈ duplicates_found md5 fs :=
    (mem_duplicates_found md5 fs _).mpr ⟨md5 c, hGB, hGlen⟩
  have hbm : (md5 c, keyFilter md5 (md5 c) fs) ∈ buildHashMap md5 fs := by
    have hne : bucketList (buildHashMap md5 fs) (md5 c) ≠ [] := by
      rw [bucketList_buildHashMap, ← hGB]
      intro hnil
      rw [hnil] at hGlen
      simp at hGlen
    have hmem := mem_of_bucketList_ne_nil (buildHashMap md5 fs) (md5 c) hne
    rwa [bucketList_buildHashMap] at hmem
  have hGl : (md5 c, keyFilter md5 (md5 c) fs)
      ∈ (buildHashMap md5 fs).filter (fun p => 1 < p.2.length) := by
    apply List.mem_filter.mpr
    refine ⟨hbm, ?_⟩
    simp only [decide_eq_true_eq]
    rw [← hGB]
    exact hGlen
  have hknd : (keys ((buildHashMap md5 fs).filter
      (fun p => 1 < p.2.length))).Nodup := by
    have hsub : ((((buildHashMap md5 fs).filter
        (fun p => 1 < p.2.length)).map (fun p => p.1))).Sublist
          ((buildHashMap md5 fs).map (fun p => p.1)) :=
      List.Sublist.map (fun p => p.1) (List.filter_sublist (buildHashMap md5 fs))
    exact List.Nodup.sublist hsub (nodup_keys_buildHashMap md5 fs)
  have hbucket : ∀ p ∈ (buildHashMap md5 fs).filter
      (fun p => 1 < p.2.length), p.2 = keyFilter md5 p.1 fs := by
    intro p hp
    have hpmem : p ∈ buildHashMap md5 fs := (List.mem_filter.mp hp).1
    have hb := bucketList_of_mem (buildHashMap md5 fs) p.1 p.2
      (nodup_keys_buildHashMap md5 fs) (by simpa using hpmem)
    rw [← hb, bucketList_buildHashMap]
  have hq : ∀ p ∈ (buildHashMap md5 fs).filter (fun p => 1 < p.2.length),
      (p.2.any (fun e => e.content == some c)) = decide (p.1 = md5 c) := by
    intro p hp
    by_cases hk : p.1 = md5 c
    · have hdec : decide (p.1 = md5 c) = true := by simp [hk]
      rw [hdec]
      apply List.any_eq_true.mpr
      have hGne : ∃ x, x ∈ fs.filter
          (fun e => e.isFile && e.content == some c) := by
        cases hcase : fs.filter (fun e => e.isFile && e.content == some c) with
        | nil => rw [hcase] at hGlen; simp at hGlen
        | cons x rest => exact ⟨x, List.mem_cons_self _ _⟩
      rcases hGne with ⟨x, hx⟩
      have hxc : (x.content == some c) = true := by
        have hpred := (List.mem_filter.mp hx).2
        simp only [Bool.and_eq_true] at hpred
        exact hpred.2
      refine ⟨x, ?_, hxc⟩
      rw [hbucket p hp, hk, ← hGB]
      exact hx
    · have hdec : decide (p.1 = md5 c) = false := by simp [hk]
      rw [hdec]
      apply Bool.eq_false_iff.mpr
      intro hany
      rcases List.any_eq_true.mp hany with ⟨e, he, hec⟩
      rw [hbucket p hp] at he
      have hke := ((mem_keyFilter md5 p.1 fs e).mp he).2
      rcases (hkeyF_eq_some md5 hke).2 with ⟨c2, hc2, hmc2⟩
      have hcc : c2 = c := by
        have hecc : e.content = some c := by simpa using hec
        rw [hc2] at hecc
        exact Option.some_inj.mp hecc
      exact hk (by rw [← hmc2, hcc])
  have hfilterG := assoc_filter_unique _ (md5 c) (keyFilter md5 (md5 c) fs)
    (fun g => g.any (fun e => e.content == some c)) hknd hGl hq
  have hconc1 : (duplicates_found md5 fs).filter
      (fun g => g.any (fun e => e.content == some c))
      = [fs.filter (fun e => e.isFile && e.content == some c)] := by
    rw [hGB]
    exact hfilterG
  refine ⟨hconc1, hGmem, ?_⟩
  rw [find_duplicates_report_eq md5 fm n fs rm hall (List.ne_nil_of_mem hGmem)]
  rw [List.countP_append, List.countP_append]
  have hpre : ([Line.fdScanning n, Line.fdRemoveFlag rm, Line.fdCalcHashes,
      Line.fdScanned (scannedCountOf md5 fs)]).countP
        (isKeepIn ((fs.filter
          (fun e => e.isFile && e.content == some c)).map Entry.path)) = 0 :=
    rfl
  have hsum : ([Line.fdSummaryHeader,
      Line.fdSummaryGroups (duplicates_found md5 fs).length,
      Line.fdSummaryDupes
        (((duplicates_found md5 fs).map (fun g => g.length - 1)).sum)]
      ++ (if rm then
            [Line.fdSummaryRemoved
               (runGroups rm (duplicates_found md5 fs)).removedCount,
             Line.fdSummaryFreed
               (runGroups rm (duplicates_found md5 fs)).spaceFreed]
          else [])).countP
        (isKeepIn ((fs.filter
          (fun e => e.isFile && e.content == some c)).map Entry.path)) = 0 := by
    cases hrm : rm <;> rfl
  have hpt : ∀ g ∈ duplicates_found md5 fs,
      (glines rm g).countP
        (isKeepIn ((fs.filter
          (fun e => e.isFile && e.content == some c)).map Entry.path))
      = if g.any (fun e => e.content == some c) then 1 else 0 := by
    intro g hg
    rcases (mem_duplicates_found md5 fs g).mp hg with ⟨k, hgk, hglen⟩
    obtain ⟨h, t, hcase⟩ : ∃ h t, g = h :: t := by
      cases hcg : g with
      | nil => rw [hcg] at hglen; simp at hglen
      | cons h t => exact ⟨h, t, rfl⟩
    subst hcase
    rw [countP_glines]
    have hiff : (((fs.filter
          (fun e => e.isFile && e.content == some c)).map Entry.path).contains
        h.path)
        = ((h :: t).any (fun e => e.content == some c)) := by
      by_cases hex : ∃ e ∈ (h :: t), e.content = some c
      · rcases hex with ⟨e, he, hec⟩
        have hke := ((mem_keyFilter md5 k fs e).mp (hgk ▸ he)).2
        rcases (hkeyF_eq_some md5 hke).2 with ⟨c2, hc2, hmc2⟩
        have hcc : c2 = c := by
          rw [hc2] at hec
          exact Option.some_inj.mp hec
        have hkc : k = md5 c := by rw [← hmc2, hcc]
        have hgG : (h :: t) = fs.filter
            (fun e => e.isFile && e.content == some c) := by
          rw [hGB, hgk, hkc]
        have hhead : h ∈ fs.filter
            (fun e => e.isFile && e.content == some c) := by
          rw [← hgG]
          exact List.mem_cons_self _ _
        have hc1 : (((fs.filter
            (fun e => e.isFile && e.content == some c)).map
              Entry.path).contains h.path) = true :=
          List.elem_iff.mpr (List.mem_map_of_mem Entry.path hhead)
        have hc2b : ((h :: t).any (fun e => e.content == some c)) = true :=
          List.any_eq_true.mpr ⟨e, he, by simp [hec]⟩
        rw [hc1, hc2b]
      · have hc2b : ((h :: t).any (fun e => e.content == some c)) = false := by
          apply Bool.eq_false_iff.mpr
          intro hany
          rcases List.any_eq_true.mp hany with ⟨e, he, hec⟩
          exact hex ⟨e, he, by simpa using hec⟩
        have hc1 : (((fs.filter
            (fun e => e.isFile && e.content == some c)).map
              Entry.path).contains h.path) = false := by
          apply Bool.eq_false_iff.mpr
          intro hcont
          rcases List.mem_map.mp (List.elem_iff.mp hcont) with ⟨x, hx, hxp⟩
          have hxfs : x ∈ fs := (List.mem_filter.mp hx).1
          have hhfs : h ∈ fs :=
            ((mem_keyFilter md5 k fs h).mp
              (hgk ▸ List.mem_cons_self h t)).1
          have hxh : x = h := path_inj fs hnd hxfs hhfs hxp
          have hpred := (List.mem_filter.mp hx).2
          simp only [Bool.and_eq_true, beq_iff_eq] at hpred
          exact hex ⟨h, List.mem_cons_self _ _, by rw [← hxh]; exact hpred.2⟩
        rw [hc1, hc2b]
    rw [hiff]
  have hmid : ((duplicates_found md5 fs).flatMap (glines rm)).countP
      (isKeepIn ((fs.filter
        (fun e => e.isFile && e.content == some c)).map Entry.path)) = 1 := by
    rw [countP_flatMap_eq_sum, List.map_congr_left hpt, countP_eq_sum_map,
      List.countP_eq_length_filter, hconc1]
    rfl
  rw [hpre, hsum, hmid]

/-- Witness for c2_unique_group at a concrete filesystem. -/
theorem c2_witness :
    ((duplicates_found id fsW).filter
        (fun g => g.any (fun e => e.content == some ([1] : Content)))
      = [fsW.filter
          (fun e => e.isFile && e.content == some ([1] : Content))]) ∧
    fsW.filter (fun e => e.isFile && e.content == some ([1] : Content))
        ∈ duplicates_found id fsW ∧
    (find_duplicates id fmW ⟨"d", true, true⟩ fsW false).fm.report.countP
        (isKeepIn ((fsW.filter
          (fun e => e.isFile && e.content == some ([1] : Content))).map
            Entry.path)) = 1 :=
  c2_unique_group id fmW "d" fsW [1] 2 false (fun _ _ h => h) (by decide)
    (by decide) (by decide) (by decide)

theorem buildHashMap_skip (md5 : Content → Fingerprint)
    (pre post : List Entry) (e : Entry) (hk : hkeyF md5 e = none) :
    buildHashMap md5 (pre ++ e :: post) = buildHashMap md5 (pre ++ post) := by
  unfold buildHashMap
  rw [List.foldl_append, List.foldl_append, List.foldl_cons]
  have hstep : scanStep md5 (pre.foldl (scanStep md5) []) e
      = pre.foldl (scanStep md5) [] := by
    unfold scanStep
    rw [hk]
  rw [hstep]

theorem find_duplicates_fm_congr (md5 : Content → Fingerprint) (fm : FM)
    (n : String) (rm : Bool) (fs1 fs2 : List Entry)
    (h1 : scannedCountOf md5 fs1 = scannedCountOf md5 fs2)
    (h2 : duplicates_found md5 fs1 = duplicates_found md5 fs2) :
    (find_duplicates md5 fm ⟨n, true, true⟩ fs1 rm).fm
      = (find_duplicates md5 fm ⟨n, true, true⟩ fs2 rm).fm := by
  by_cases hd : (duplicates_found md5 fs2).isEmpty
  · simp [find_duplicates, h1, h2, hd]
  · have hd2 : (duplicates_found md5 fs2).isEmpty = false := by
      simpa using hd
    simp only [find_duplicates, h1, h2, hd2, Bool.not_true,
      Bool.false_eq_true, if_false, if_true, ite_true, ite_false,
      Bool.ite_eq_true_distrib]
    split <;> rfl

theorem find_duplicates_hashErrors (md5 : Content → Fingerprint) (fm : FM)
    (n : String) (fs : List Entry) (rm : Bool) :
    (find_duplicates md5 fm ⟨n, true, true⟩ fs rm).hashErrors
      = hashErrorsOf md5 fs := by
  by_cases hd : (duplicates_found md5 fs).isEmpty
  · simp [find_duplicates, hd]
  · have hd2 : (duplicates_found md5 fs).isEmpty = false := by
      simpa using hd
    simp only [find_duplicates, hd2, Bool.not_true, Bool.false_eq_true,
      if_false, if_true, ite_true, ite_false, Bool.ite_eq_true_distrib]
    split <;> rfl

/-- C9: a file whose hashing fails (content unreadable) is logged to the
console, excluded from every duplicate group, not counted as scanned, and
its presence changes nothing in the operation report: the scan of the
remaining files proceeds exactly as if the file were absent. -/
theorem c9_hash_failure_skipped (md5 : Content → Fingerprint) (fm : FM)
    (n : String) (rm : Bool) (pre post : List Entry) (e : Entry)
    (hf : e.isFile = true) (hc : e.content = none) :
    (find_duplicates md5 fm ⟨n, true, true⟩ (pre ++ e :: post) rm).fm.report
      = (find_duplicates md5 fm ⟨n, true, true⟩ (pre ++ post) rm).fm.report ∧
    e.path ∈ (find_duplicates md5 fm ⟨n, true, true⟩
        (pre ++ e :: post) rm).hashErrors ∧
    (∀ g ∈ duplicates_found md5 (pre ++ e :: post), e ∉ g) ∧
    scannedCountOf md5 (pre ++ e :: post)
      = scannedCountOf md5 (pre ++ post) := by
  have hkey : hkeyF md5 e = none := by
    simp [hkeyF, get_file_hash, hf, hc]
  have hhash : buildHashMap md5 (pre ++ e :: post)
      = buildHashMap md5 (pre ++ post) := buildHashMap_skip md5 pre post e hkey
  have hpred : (e.isFile && (get_file_hash md5 e).isSome) = false := by
    simp [get_file_hash, hc]
  have hscan : scannedCountOf md5 (pre ++ e :: post)
      = scannedCountOf md5 (pre ++ post) := by
    unfold scannedCountOf
    rw [List.filter_append, List.filter_append, List.filter_cons, hpred]
    simp
  have hdups : duplicates_found md5 (pre ++ e :: post)
      = duplicates_found md5 (pre ++ post) := by
    unfold duplicates_found
    rw [hhash]
  refine ⟨?_, ?_, ?_, hscan⟩
  · rw [find_duplicates_fm_congr md5 fm n rm _ _ hscan hdups]
  · rw [find_duplicates_hashErrors]
    unfold hashErrorsOf
    apply List.mem_map.mpr
    refine ⟨e, ?_, rfl⟩
    apply List.mem_filter.mpr
    refine ⟨?_, ?_⟩
    · exact List.mem_append.mpr (Or.inr (List.mem_cons_self _ _))
    · simp [get_file_hash, hf, hc]
  · intro g hg hmem
    rcases (mem_duplicates_found md5 _ g).mp hg with ⟨k, hgk, -⟩
    have hke := ((mem_keyFilter md5 k _ e).mp (hgk ▸ hmem)).2
    rw [hkey] at hke
    cases hke

/-- Fixture: an unreadable file inserted between the two duplicates. -/
def eBad : Entry := ⟨9, true, none, true, true⟩

/-- Witness for c9_hash_failure_skipped at a concrete filesystem. -/
theorem c9_witness :
    (find_duplicates id fmW ⟨"d", true, true⟩
        ([eW0] ++ eBad :: [eW1]) true).fm.report
      = (find_duplicates id fmW ⟨"d", true, true⟩
          ([eW0] ++ [eW1]) true).fm.report ∧
    eBad.path ∈ (find_duplicates id fmW ⟨"d", true, true⟩
        ([eW0] ++ eBad :: [eW1]) true).hashErrors ∧
    (∀ g ∈ duplicates_found id ([eW0] ++ eBad :: [eW1]), eBad ∉ g) ∧
    scannedCountOf id ([eW0] ++ eBad :: [eW1])
      = scannedCountOf id ([eW0] ++ [eW1]) :=
  c9_hash_failure_skipped id fmW "d" true [eW0] [eW1] eBad rfl rfl

theorem runGroups_crash (rm : Bool) (gs : List (List Entry))
    (hbad : ∃ g ∈ gs, headStatOk g = false) :
    (runGroups rm gs).crashed = true := by
  induction gs with
  | nil => rcases hbad with ⟨g, hg, -⟩; cases hg
  | cons g rest ih =>
      rcases hbad with ⟨g2, hg2, hb⟩
      cases g with
      | nil =>
          have htail : g2 ∈ rest := by
            rcases List.mem_cons.mp hg2 with heq | htail
            · subst heq; cases hb
            · exact htail
          simpa [runGroups] using ih ⟨g2, htail, hb⟩
      | cons h t =>
          by_cases hst : h.statOk
          · have htail : g2 ∈ rest := by
              rcases List.mem_cons.mp hg2 with heq | htail
              · subst heq
                rw [show headStatOk (h :: t) = h.statOk from rfl] at hb
                rw [hb] at hst
                simp at hst
              · exact htail
            simpa [runGroups, hst] using ih ⟨g2, htail, hb⟩
          · simp [runGroups, hst]

theorem find_duplicates_crashed_eq (md5 : Content → Fingerprint) (fm : FM)
    (n : String) (fs : List Entry) (rm : Bool) :
    (find_duplicates md5 fm ⟨n, true, true⟩ fs rm).crashed
      = (runGroups rm (duplicates_found md5 fs)).crashed := by
  by_cases hd : (duplicates_found md5 fs).isEmpty
  · have hnil : duplicates_found md5 fs = [] := by
      simpa [List.isEmpty_iff] using hd
    simp [find_duplicates, hd, hnil, runGroups]
  · have hd2 : (duplicates_found md5 fs).isEmpty = false := by
      simpa using hd
    simp only [find_duplicates, hd2, Bool.not_true, Bool.false_eq_true,
      if_false, if_true, ite_true, ite_false, Bool.ite_eq_true_distrib]
    split
    · next hcr => exact hcr.symm
    · next hcr => simpa using (Bool.not_eq_true _).mp hcr |>.symm

/-- C5, the claim as frozen, is false: on fsX the stat call at main.py
line 244 raises for the head of the second duplicate group, and the
exception escapes find_duplicates uncaught. -/
theorem c5_counterexample :
    (find_duplicates id fmW ⟨"d", true, true⟩ fsX true).crashed = true := by
  decide

/-- C5 (amended): an exception escapes find_duplicates exactly when some
duplicate group head fails its stat call (main.py line 244, the only
filesystem call of the engine outside a try block); in particular no
exception escapes when every group head can be stat-ed. -/
theorem c5_amended_no_escape (md5 : Content → Fingerprint) (fm : FM)
    (n : String) (fs : List Entry) (rm : Bool) :
    (find_duplicates md5 fm ⟨n, true, true⟩ fs rm).crashed = false
      ↔ ∀ g ∈ duplicates_found md5 fs, headStatOk g = true := by
  rw [find_duplicates_crashed_eq]
  constructor
  · intro hc g hg
    by_contra hb
    have hb2 : headStatOk g = false := by
      cases hh : headStatOk g
      · rfl
      · exact absurd hh hb
    rw [runGroups_crash rm _ ⟨g, hg, hb2⟩] at hc
    cases hc
  · intro hall
    exact (runGroups_no_crash rm _ hall).1

/-- Witness for c5_amended_no_escape at a concrete filesystem. -/
theorem c5_witness :
    (find_duplicates id fmW ⟨"d", true, true⟩ fsW true).crashed = false :=
  (c5_amended_no_escape id fmW "d" fsW true).mpr (by decide)

theorem bulk_rename_not_exists (resub : String → String → String → String)
    (fm : FM) (nm : String) (isd : Bool) (fsR : List REntry)
    (pat repl : String) (ur : Bool) :
    bulk_rename resub fm ⟨nm, false, isd⟩ fsR pat repl ur
      = ⟨⟨[Line.brStart nm, Line.brPatternLine pat repl, Line.brRegexMode ur,
           Line.dirNotExist nm]⟩, fsR, none⟩ := rfl

theorem bulk_rename_not_dir (resub : String → String → String → String)
    (fm : FM) (nm : String) (fsR : List REntry) (pat repl : String)
    (ur : Bool) :
    bulk_rename resub fm ⟨nm, true, false⟩ fsR pat repl ur
      = ⟨⟨[Line.brStart nm, Line.brPatternLine pat repl, Line.brRegexMode ur,
           Line.brBatchError, Line.brSummary 0 0]⟩, fsR, none⟩ := rfl

theorem sort_files_not_exists (fm : FM) (nm : String) (isd : Bool)
    (fsS : List SEntry) (cs : Bool) :
    sort_files fm ⟨nm, false, isd⟩ fsS cs
      = ⟨⟨[Line.sfStart nm, Line.dirNotExist nm]⟩, fsS, none⟩ := rfl

theorem sort_files_not_dir (fm : FM) (nm : String) (fsS : List SEntry)
    (cs : Bool) :
    sort_files fm ⟨nm, true, false⟩ fsS cs
      = ⟨⟨[Line.sfStart nm, Line.sfBatchError, Line.sfCatHeader,
           Line.sfTotal 0 0]⟩, fsS, none⟩ := rfl

theorem find_duplicates_not_exists (md5 : Content → Fingerprint) (fm : FM)
    (nm : String) (isd : Bool) (fsE : List Entry) (rm : Bool) :
    find_duplicates md5 fm ⟨nm, false, isd⟩ fsE rm
      = ⟨⟨[Line.fdScanning nm, Line.fdRemoveFlag rm, Line.dirNotExist nm]⟩,
         fsE, [], false, none⟩ := rfl

theorem find_duplicates_not_dir (md5 : Content → Fingerprint) (fm : FM)
    (nm : String) (fsE : List Entry) (rm : Bool) :
    find_duplicates md5 fm ⟨nm, true, false⟩ fsE rm
      = ⟨⟨[Line.fdScanning nm, Line.fdRemoveFlag rm, Line.fdCalcHashes,
           Line.fdScanned 0, Line.noDuplicates]⟩,
         fsE, [], false, none⟩ := rfl

/-- C4, the claim as frozen, is false: on a path that exists but is not a
directory, find_duplicates does not fail with the DirectoryNotFound error
and does not abort at an eager check; the traversal failure is caught by
the in-operation handler and the operation runs on to its normal
no-duplicates epilogue. -/
theorem c4_counterexample :
    Line.dirNotExist "f" ∉
      (find_duplicates id fmW ⟨"f", true, false⟩ fsW true).fm.report ∧
    Line.fdScanned 0 ∈
      (find_duplicates id fmW ⟨"f", true, false⟩ fsW true).fm.report ∧
    Line.noDuplicates ∈
      (find_duplicates id fmW ⟨"f", true, false⟩ fsW true).fm.report := by
  decide

/-- C4 (amended): each operation checks only path existence eagerly.  On a
nonexistent path it reports the does-not-exist error and returns before any
traversal with the filesystem untouched; on a path that exists but is not
a directory it passes the eager check and no file is touched, but no
DirectoryNotFound error is raised either: bulk_rename and sort_files have
iterdir raise inside the try block, caught by the per-operation handler as
a generic error line, while find_duplicates has rglob yield nothing
silently, so it reports zero files scanned and no duplicates with no error
line at all; in every case the operation runs its normal epilogue instead
of aborting at the check. -/
theorem c4_amended_dir_check (resub : String → String → String → String)
    (md5 : Content → Fingerprint) (fm : FM) (nm : String) (isd : Bool)
    (fsR : List REntry) (fsS : List SEntry) (fsE : List Entry)
    (pat repl : String) (ur cs rm : Bool) :
    ((bulk_rename resub fm ⟨nm, false, isd⟩ fsR pat repl ur).fs = fsR ∧
     (bulk_rename resub fm ⟨nm, false, isd⟩ fsR pat repl ur).fm.report
       = [Line.brStart nm, Line.brPatternLine pat repl, Line.brRegexMode ur,
          Line.dirNotExist nm]) ∧
    ((sort_files fm ⟨nm, false, isd⟩ fsS cs).fs = fsS ∧
     (sort_files fm ⟨nm, false, isd⟩ fsS cs).fm.report
       = [Line.sfStart nm, Line.dirNotExist nm]) ∧
    ((find_duplicates md5 fm ⟨nm, false, isd⟩ fsE rm).fs = fsE ∧
     (find_duplicates md5 fm ⟨nm, false, isd⟩ fsE rm).fm.report
       = [Line.fdScanning nm, Line.fdRemoveFlag rm, Line.dirNotExist nm]) ∧
    ((bulk_rename resub fm ⟨nm, true, false⟩ fsR pat repl ur).fs = fsR ∧
     Line.brBatchError ∈
       (bulk_rename resub fm ⟨nm, true, false⟩ fsR pat repl ur).fm.report ∧
     Line.dirNotExist nm ∉
       (bulk_rename resub fm ⟨nm, true, false⟩ fsR pat repl ur).fm.report) ∧
    ((sort_files fm ⟨nm, true, false⟩ fsS cs).fs = fsS ∧
     Line.sfBatchError ∈ (sort_files fm ⟨nm, true, false⟩ fsS cs).fm.report ∧
     Line.dirNotExist nm ∉
       (sort_files fm ⟨nm, true, false⟩ fsS cs).fm.report) ∧
    ((find_duplicates md5 fm ⟨nm, true, false⟩ fsE rm).fs = fsE ∧
     (find_duplicates md5 fm ⟨nm, true, false⟩ fsE rm).fm.report
       = [Line.fdScanning nm, Line.fdRemoveFlag rm, Line.fdCalcHashes,
          Line.fdScanned 0, Line.noDuplicates] ∧
     Line.dirNotExist nm ∉
       (find_duplicates md5 fm ⟨nm, true, false⟩ fsE rm).fm.report ∧
     (find_duplicates md5 fm ⟨nm, true, false⟩ fsE rm).crashed = false) := by
  refine ⟨⟨rfl, rfl⟩, ⟨rfl, rfl⟩, ⟨rfl, rfl⟩, ⟨rfl, ?_, ?_⟩,
    ⟨rfl, ?_, ?_⟩, ⟨rfl, rfl, ?_, rfl⟩⟩
  · rw [bulk_rename_not_dir]
    simp
  · rw [bulk_rename_not_dir]
    simp
  · rw [sort_files_not_dir]
    simp
  · rw [sort_files_not_dir]
    simp
  · rw [find_duplicates_not_dir]
    simp

theorem find_duplicates_retval (md5 : Content → Fingerprint) (fm : FM)
    (d : DirMeta) (fsE : List Entry) (rm : Bool) :
    (find_duplicates md5 fm d fsE rm).retval = none := by
  simp only [find_duplicates]
  repeat first | rfl | split

theorem bulk_rename_retval (resub : String → String → String → String)
    (fm : FM) (d : DirMeta) (fsR : List REntry) (pat repl : String)
    (ur : Bool) :
    (bulk_rename resub fm d fsR pat repl ur).retval = none := by
  simp only [bulk_rename]
  repeat first | rfl | split

theorem sort_files_retval (fm : FM) (d : DirMeta) (fsS : List SEntry)
    (cs : Bool) : (sort_files fm d fsS cs).retval = none := by
  simp only [sort_files]
  repeat first | rfl | split

/-- C6, the claim as frozen, is false: an engine operation that produced a
nonempty report still returns None; the report is only available through
the mutated report field of the manager. -/
theorem c6_counterexample :
    (bulk_rename (fun _ _ s => s) fmW ⟨"d", true, true⟩
        [⟨"foobar.txt", true, true⟩] "foo" "bar" false).retval = none ∧
    (bulk_rename (fun _ _ s => s) fmW ⟨"d", true, true⟩
        [⟨"foobar.txt", true, true⟩] "foo" "bar" false).fm.report ≠ [] := by
  decide

/-- C6 (amended): the three engine methods (the remove-duplicates menu
entry calls find_duplicates) always return None; each one clears the
manager report field on entry and accumulates its ordered report lines
there, so the final report is independent of whatever report a previous
operation left behind, and callers read it from the field. -/
theorem c6_amended_report_field (resub : String → String → String → String)
    (md5 : Content → Fingerprint) (fm : FM) (d : DirMeta)
    (fsR : List REntry) (fsS : List SEntry) (fsE : List Entry)
    (pat repl : String) (ur cs rm : Bool) :
    (bulk_rename resub fm d fsR pat repl ur).retval = none ∧
    (sort_files fm d fsS cs).retval = none ∧
    (find_duplicates md5 fm d fsE rm).retval = none ∧
    bulk_rename resub fm d fsR pat repl ur
      = bulk_rename resub ⟨[]⟩ d fsR pat repl ur ∧
    sort_files fm d fsS cs = sort_files ⟨[]⟩ d fsS cs ∧
    find_duplicates md5 fm d fsE rm = find_duplicates md5 ⟨[]⟩ d fsE rm :=
  ⟨bulk_rename_retval resub fm d fsR pat repl ur,
   sort_files_retval fm d fsS cs,
   find_duplicates_retval md5 fm d fsE rm,
   rfl, rfl, rfl⟩

/-- Fixture regex engine: never used in literal mode. -/
def rsubW : String → String → String → String := fun _ _ s => s

/-- C8: literal rename of pattern foo to bar turns foobar.txt into
barbar.txt with a success line; when barbar.txt already exists the file
keeps its name and a collision line is reported. -/
theorem c8_literal_rename :
    ((bulk_rename rsubW fmW ⟨"d", true, true⟩
        [⟨"foobar.txt", true, true⟩] "foo" "bar" false).fs
      = [⟨"barbar.txt", true, true⟩]) ∧
    Line.brRenamed "foobar.txt" "barbar.txt" ∈
      (bulk_rename rsubW fmW ⟨"d", true, true⟩
        [⟨"foobar.txt", true, true⟩] "foo" "bar" false).fm.report ∧
    ((bulk_rename rsubW fmW ⟨"d", true, true⟩
        [⟨"foobar.txt", true, true⟩, ⟨"barbar.txt", true, true⟩]
        "foo" "bar" false).fs
      = [⟨"foobar.txt", true, true⟩, ⟨"barbar.txt", true, true⟩]) ∧
    Line.brSkipExists "foobar.txt" ∈
      (bulk_rename rsubW fmW ⟨"d", true, true⟩
        [⟨"foobar.txt", true, true⟩, ⟨"barbar.txt", true, true⟩]
        "foo" "bar" false).fm.report := by
  decide

theorem resolveCounter_spec (occ : String → Bool) (stem ext : String) :
    ∀ (fuel c : Nat),
      (∃ k, c ≤ k ∧ k ≤ c + fuel ∧ occ (nthName stem ext k) = false) →
      c ≤ resolveCounter occ stem ext fuel c ∧
      occ (nthName stem ext (resolveCounter occ stem ext fuel c)) = false ∧
      ∀ j, c ≤ j → j < resolveCounter occ stem ext fuel c →
        occ (nthName stem ext j) = true := by
  intro fuel
  induction fuel with
  | zero =>
      rintro c ⟨k, hck, hkc, hk⟩
      have hkcc : k = c := by omega
      subst hkcc
      rw [show resolveCounter occ stem ext 0 k = k from rfl]
      exact ⟨Nat.le_refl k, hk, fun j hj1 hj2 => by omega⟩
  | succ fuel ih =>
      rintro c ⟨k, hck, hkc, hk⟩
      by_cases hc : occ (nthName stem ext c) = true
      · have hstep : resolveCounter occ stem ext (fuel + 1) c
            = resolveCounter occ stem ext fuel (c + 1) := by
          simp [resolveCounter, hc]
        have hkne : k ≠ c := by
          intro hh
          subst hh
          rw [hk] at hc
          cases hc
        obtain ⟨h1, h2, h3⟩ := ih (c + 1) ⟨k, by omega, by omega, hk⟩
        rw [hstep]
        refine ⟨by omega, h2, ?_⟩
        intro j hj1 hj2
        by_cases hj : j = c
        · subst hj; exact hc
        · exact h3 j (by omega) hj2
      · have hcf : occ (nthName stem ext c) = false := by
          cases hh : occ (nthName stem ext c)
          · rfl
          · exact absurd hh hc
        have hstep : resolveCounter occ stem ext (fuel + 1) c = c := by
          simp [resolveCounter, hcf]
        rw [hstep]
        exact ⟨Nat.le_refl c, hcf, fun j hj1 hj2 => by omega⟩

/-- C7, the claim as frozen, is false on the extension case: the collision
name is built from the lowercased extension (ext of main.py line 140), so
Photo.JPG colliding in Images yields Photo_1.jpg, not Photo_1.JPG — the
original extension is not preserved. -/
theorem c7_counterexample :
    ((sort_files fmW ⟨"d", true, true⟩
        [⟨[], "Photo", ".JPG", true, true⟩,
         ⟨["Images"], "Photo", ".JPG", true, true⟩] true).fs
      = [⟨["Images"], "Photo_1", ".jpg", true, true⟩,
         ⟨["Images"], "Photo", ".JPG", true, true⟩]) ∧
    (⟨["Images"], "Photo_1", ".JPG", true, true⟩ : SEntry) ∉
      (sort_files fmW ⟨"d", true, true⟩
        [⟨[], "Photo", ".JPG", true, true⟩,
         ⟨["Images"], "Photo", ".JPG", true, true⟩] true).fs := by
  decide

/-- C7 (amended): the collision loop that sort_files runs on an occupied
destination tries stem_N with the lowercased extension for N = 1, 2, ...
and settles on the first free candidate: whenever some candidate within
the fuel bound is free (always true on a finite directory), the chosen N
is at least 1, its name is free, and every smaller candidate from 1 on is
occupied. -/
theorem c7_amended_suffix_policy (occupied : String → Bool)
    (stem ext : String) (fuel : Nat)
    (hfree : ∃ k, 1 ≤ k ∧ k ≤ 1 + fuel ∧
      occupied (nthName stem ext k) = false) :
    1 ≤ resolveCounter occupied stem ext fuel 1 ∧
    occupied (nthName stem ext (resolveCounter occupied stem ext fuel 1))
      = false ∧
    ∀ j, 1 ≤ j → j < resolveCounter occupied stem ext fuel 1 →
      occupied (nthName stem ext j) = true :=
  resolveCounter_spec occupied stem ext fuel 1 hfree

/-- Witness for c7_amended_suffix_policy: with Photo_1.jpg occupied the
loop settles on counter 2. -/
theorem c7_witness :
    1 ≤ resolveCounter (fun s => s == "Photo_1.jpg") "Photo" ".jpg" 3 1 ∧
    (fun s => s == "Photo_1.jpg")
        (nthName "Photo" ".jpg"
          (resolveCounter (fun s => s == "Photo_1.jpg") "Photo" ".jpg" 3 1))
      = false ∧
    ∀ j, 1 ≤ j →
      j < resolveCounter (fun s => s == "Photo_1.jpg") "Photo" ".jpg" 3 1 →
      (fun s => s == "Photo_1.jpg") (nthName "Photo" ".jpg" j) = true :=
  c7_amended_suffix_policy (fun s => s == "Photo_1.jpg") "Photo" ".jpg" 3
    ⟨2, by decide, by decide, by decide⟩

theorem renameGo_nonfile (resub : String → String → String → String)
    (pat repl : String) (ur : Bool) :
    ∀ (todo done : List REntry) (lines : List Line) (rn er : Nat),
      (renameGo resub pat repl ur done todo lines rn er).fs.filter
          (fun x => !x.isFile)
        = (done ++ todo).filter (fun x => !x.isFile) := by
  intro todo
  induction todo with
  | nil =>
      intro done lines rn er
      simp [renameGo]
  | cons x rest ih =>
      intro done lines rn er
      simp only [renameGo]
      split
      · rw [ih]
        simp [List.append_assoc]
      · next hf =>
        have hx : x.isFile = true := by
          cases hh : x.isFile
          · rw [hh] at hf; simp at hf
          · rfl
        split
        · rw [ih]; simp [List.append_assoc]
        · split
          · rw [ih]; simp [List.append_assoc]
          · split
            · rw [ih]
              simp [List.filter_append, List.filter_cons, hx]
            · rw [ih]; simp [List.append_assoc]

theorem sortGo_nonfile (cs : Bool) :
    ∀ (todo done : List SEntry) (lines : List Line)
      (moved : List (String × Nat)) (errs : Nat),
      (sortGo cs done todo lines moved errs).fs.filter (fun x => !x.isFile)
        = (done ++ todo).filter (fun x => !x.isFile) := by
  intro todo
  induction todo with
  | nil =>
      intro done lines moved errs
      simp [sortGo]
  | cons e rest ih =>
      intro done lines moved errs
      simp only [sortGo]
      split
      · rw [ih]
        simp [List.append_assoc]
      · next hf =>
        have he : e.isFile = true := by
          cases hh : e.isFile
          · rw [hh] at hf; simp at hf
          · rfl
        repeat' split
        all_goals rw [ih]
        all_goals
          simp [List.filter_append, List.filter_cons, List.append_assoc, he]

theorem duplicates_found_isFile (md5 : Content → Fingerprint)
    (fs : List Entry) :
    ∀ g ∈ duplicates_found md5 fs, ∀ e ∈ g, e.isFile = true := by
  intro g hg e he
  rcases (mem_duplicates_found md5 fs g).mp hg with ⟨k, hgk, -⟩
  have hke := ((mem_keyFilter md5 k fs e).mp (hgk ▸ he)).2
  exact (hkeyF_eq_some md5 hke).1

theorem find_duplicates_nonfile (md5 : Content → Fingerprint) (fm : FM)
    (n : String) (fs : List Entry) (rm : Bool)
    (hnd : (fs.map Entry.path).Nodup) :
    (find_duplicates md5 fm ⟨n, true, true⟩ fs rm).fs.filter
        (fun e => !e.isFile)
      = fs.filter (fun e => !e.isFile) := by
  rw [find_duplicates_fs_eq, filter_swap]
  apply List.filter_eq_self.mpr
  intro e he
  rcases List.mem_filter.mp he with ⟨hefs, henf⟩
  have henf2 : e.isFile = false := by
    cases hh : e.isFile
    · rfl
    · rw [hh] at henf; simp at henf
  cases hc : (runGroups rm (duplicates_found md5 fs)).removedPaths.contains
      e.path
  · rfl
  · exfalso
    have hmem : e.path ∈ (runGroups rm
        (duplicates_found md5 fs)).removedPaths := List.elem_iff.mp hc
    rcases runGroups_removed_subset rm _ _ hmem with ⟨g, hg, hx⟩
    rcases List.mem_map.mp hx with ⟨x, hxd, hxp⟩
    have hxg : x ∈ g := List.mem_of_mem_drop hxd
    have hxfile : x.isFile = true := duplicates_found_isFile md5 fs g hg x hxg
    rcases (mem_duplicates_found md5 fs g).mp hg with ⟨k, hgk, -⟩
    have hxfs : x ∈ fs := ((mem_keyFilter md5 k fs x).mp (hgk ▸ hxg)).1
    have hxe : x = e := path_inj fs hnd hxfs hefs hxp
    rw [hxe, henf2] at hxfile
    cases hxfile

/-- C10: the engine operations act only on regular files.  Entries that
are not regular files pass through bulk_rename and sort_files untouched
(the non-file sublist of the directory is unchanged), find_duplicates
never deletes them, and every member of every duplicate group (the only
entries hashed into groups or deleted) is a regular file. -/
theorem c10_only_regular_files (resub : String → String → String → String)
    (md5 : Content → Fingerprint) (fm : FM) (nm : String)
    (fsR : List REntry) (fsS : List SEntry) (fsE : List Entry)
    (pat repl : String) (ur cs rm : Bool)
    (hnd : (fsE.map Entry.path).Nodup) :
    ((bulk_rename resub fm ⟨nm, true, true⟩ fsR pat repl ur).fs.filter
        (fun x => !x.isFile) = fsR.filter (fun x => !x.isFile)) ∧
    ((sort_files fm ⟨nm, true, true⟩ fsS cs).fs.filter
        (fun x => !x.isFile) = fsS.filter (fun x => !x.isFile)) ∧
    ((find_duplicates md5 fm ⟨nm, true, true⟩ fsE rm).fs.filter
        (fun e => !e.isFile) = fsE.filter (fun e => !e.isFile)) ∧
    (∀ g ∈ duplicates_found md5 fsE, ∀ e ∈ g, e.isFile = true) := by
  refine ⟨?_, ?_, find_duplicates_nonfile md5 fm nm fsE rm hnd,
    duplicates_found_isFile md5 fsE⟩
  · have hbr : (bulk_rename resub fm ⟨nm, true, true⟩ fsR pat repl ur).fs
        = (renameGo resub pat repl ur [] fsR [] 0 0).fs := rfl
    rw [hbr, renameGo_nonfile]
    rfl
  · have hsf : (sort_files fm ⟨nm, true, true⟩ fsS cs).fs
        = (sortGo cs [] fsS [] [] 0).fs := rfl
    rw [hsf, sortGo_nonfile]
    rfl

/-- Fixture: a subdirectory entry seen by the recursive scan. -/
def eDir : Entry := ⟨5, false, none, true, true⟩

/-- Witness for c10_only_regular_files at concrete directory contents. -/
theorem c10_witness :
    ((bulk_rename rsubW fmW ⟨"d", true, true⟩
        [⟨"sub", false, true⟩, ⟨"foobar.txt", true, true⟩]
        "foo" "bar" false).fs.filter (fun x => !x.isFile)
      = ([⟨"sub", false, true⟩, ⟨"foobar.txt", true, true⟩] :
          List REntry).filter (fun x => !x.isFile)) ∧
    ((sort_files fmW ⟨"d", true, true⟩
        [⟨[], "sub", "", false, true⟩, ⟨[], "a", ".txt", true, true⟩]
        true).fs.filter (fun x => !x.isFile)
      = ([⟨[], "sub", "", false, true⟩, ⟨[], "a", ".txt", true, true⟩] :
          List SEntry).filter (fun x => !x.isFile)) ∧
    ((find_duplicates id fmW ⟨"d", true, true⟩ [eW0, eDir, eW1] true).fs.filter
        (fun e => !e.isFile)
      = ([eW0, eDir, eW1] : List Entry).filter (fun e => !e.isFile)) ∧
    (∀ g ∈ duplicates_found id [eW0, eDir, eW1], ∀ e ∈ g,
      e.isFile = true) :=
  c10_only_regular_files rsubW id fmW "d"
    [⟨"sub", false, true⟩, ⟨"foobar.txt", true, true⟩]
    [⟨[], "sub", "", false, true⟩, ⟨[], "a", ".txt", true, true⟩]
    [eW0, eDir, eW1] "foo" "bar" false true true (by decide)
